import Mathlib

/-!
Verification development for the tile library: an embedding of its
property bags, TMX map model, compositor (Fits/Add), CSV grid codec,
encode/decode pipeline and the sqlite-backed infinite map, together with
theorems settling the specification claims.

Go maps are modelled as association lists with unique keys: `mapGet`
is lookup, `mapSet` is insert-or-replace (upsert), `mapDel` is delete.
Go pointers to Tile objects are modelled as indices into a per-map
arena (`Map.heap`); the tileset indices store such indices so that a
mutation through one alias is visible through all of them, as in Go.
-/

set_option linter.dupNamespace false

namespace Tile

/-- Lookup in an association list (Go map read `m[k]`). -/
def mapGet {κ α : Type} [DecidableEq κ] : List (κ × α) → κ → Option α
  | [], _ => none
  | kv :: rest, k => if kv.1 = k then some kv.2 else mapGet rest k

/-- Insert-or-replace in an association list (Go map write `m[k] = v`). -/
def mapSet {κ α : Type} [DecidableEq κ] : List (κ × α) → κ → α → List (κ × α)
  | [], k, v => [(k, v)]
  | kv :: rest, k, v => if kv.1 = k then (k, v) :: rest else kv :: mapSet rest k v

/-- Delete from an association list (Go `delete(m, k)`). -/
def mapDel {κ α : Type} [DecidableEq κ] (l : List (κ × α)) (k : κ) : List (κ × α) :=
  l.filter (fun kv => kv.1 ≠ k)

theorem mapGet_mapSet {κ α : Type} [DecidableEq κ] (l : List (κ × α)) (k k' : κ) (v : α) :
    mapGet (mapSet l k v) k' = if k = k' then some v else mapGet l k' := by
  induction l with
  | nil =>
    simp only [mapSet, mapGet]
  | cons kv rest ih =>
    simp only [mapSet]
    by_cases h1 : kv.1 = k
    · by_cases h2 : k = k'
      · simp [mapGet, h1, h2]
      · simp [mapGet, h1, h2, h1.symm ▸ h2]
    · by_cases h2 : kv.1 = k'
      · have hne : ¬ k = k' := fun h => h1 (h ▸ h2)
        have hne2 : ¬ k' = k := fun h => hne h.symm
        simp [mapGet, h1, h2, hne, hne2]
      · simp [mapGet, h1, h2, ih]

theorem mapGet_mapDel {κ α : Type} [DecidableEq κ] (l : List (κ × α)) (k k' : κ) :
    mapGet (mapDel l k) k' = if k = k' then none else mapGet l k' := by
  induction l with
  | nil => simp [mapDel, mapGet]
  | cons kv rest ih =>
    simp only [mapDel, List.filter_cons] at ih ⊢
    by_cases h1 : kv.1 = k
    · have hne : ∀ hk : ¬ k = k', ¬ kv.1 = k' := fun hk he => hk (h1 ▸ he)
      by_cases h2 : k = k'
      · simpa [h1, h2, mapGet] using ih
      · simp only [h1, h2] at ih ⊢
        simpa [mapGet, hne h2] using ih
    · by_cases h2 : kv.1 = k'
      · have hne : ¬ k = k' := fun h => h1 (h ▸ h2)
        have hne2 : ¬ k' = k := fun h => hne h.symm
        simp [h1, h2, mapGet, hne, hne2]
      · have hd : (decide (kv.1 ≠ k)) = true := by simp [h1]
        simp only [hd, if_true] at ih ⊢
        simpa [mapGet, h2] using ih

/-- Accumulating decimal parser: consumes the whole character list and
fails on any non-digit. -/
def parseDigitsAux : List Char → Nat → Option Nat
  | [], acc => some acc
  | c :: cs, acc =>
    if c.isDigit then parseDigitsAux cs (acc * 10 + (c.toNat - 48)) else none

/-- Decimal digits to a number; fails on the empty string or a non-digit. -/
def parseDigits : List Char → Option Nat
  | [] => none
  | cs => parseDigitsAux cs 0

/-- The model of Go strconv.ParseInt(s, 10, 64): an optional sign
followed by at least one decimal digit (the 64-bit range check is not
modelled; every name and value in scope is tiny). -/
def parseGoInt (s : String) : Option Int :=
  match s.data with
  | '-' :: rest => (parseDigits rest).map (fun n => -(n : Int))
  | '+' :: rest => (parseDigits rest).map (fun n => (n : Int))
  | l => (parseDigits l).map (fun n => (n : Int))

/-- A TMX property as carried in the XML: name, textual value, type tag. -/
structure Property where
  name : String
  value : String
  ptype : String
deriving DecidableEq

/-- The typed property bag: three Go maps keyed by property name
(fields `ints`, `strings`, `bools` of the Go `Properties` struct). -/
structure Properties where
  ints : List (String × Int)
  strings : List (String × String)
  bools : List (String × Bool)
deriving DecidableEq

/-- `NewProperties` returns an empty properties bag. -/
def NewProperties : Properties := ⟨[], [], []⟩

namespace Properties

/-- `String(key)` lookup of the Go bag. -/
def getString (p : Properties) (key : String) : Option String := mapGet p.strings key

/-- `Int(key)` lookup of the Go bag. -/
def getInt (p : Properties) (key : String) : Option Int := mapGet p.ints key

/-- `Bool(key)` lookup of the Go bag. -/
def getBool (p : Properties) (key : String) : Option Bool := mapGet p.bools key

/-- `SetString`: write the string map, evict the key from the other two. -/
def setString (p : Properties) (key value : String) : Properties :=
  { strings := mapSet p.strings key value
    ints := mapDel p.ints key
    bools := mapDel p.bools key }

/-- `SetInt`: write the int map, evict the key from the other two. -/
def setInt (p : Properties) (key : String) (value : Int) : Properties :=
  { ints := mapSet p.ints key value
    strings := mapDel p.strings key
    bools := mapDel p.bools key }

/-- `SetBool`: write the bool map, evict the key from the other two. -/
def setBool (p : Properties) (key : String) (value : Bool) : Properties :=
  { bools := mapSet p.bools key value
    strings := mapDel p.strings key
    ints := mapDel p.ints key }

/-- `Merge` copies every entry of each of the three maps of `o` into the
corresponding map of `p` by plain map assignment (`p.ints[k] = v` and so
on); it does not go through the evicting setters. -/
def merge (p o : Properties) : Properties :=
  { ints := o.ints.foldl (fun acc kv => mapSet acc kv.1 kv.2) p.ints
    strings := o.strings.foldl (fun acc kv => mapSet acc kv.1 kv.2) p.strings
    bools := o.bools.foldl (fun acc kv => mapSet acc kv.1 kv.2) p.bools }

/-- `toList` renders the bag back into the XML property list: the int
entries (type "int"), then the bool entries (type "bool"), then the
string entries (type "string"). -/
def toList (p : Properties) : List Property :=
  (p.ints.map fun kv => ⟨kv.1, toString kv.2, "int"⟩)
    ++ (p.bools.map fun kv => ⟨kv.1, if kv.2 then "true" else "false", "bool"⟩)
    ++ (p.strings.map fun kv => ⟨kv.1, kv.2, "string"⟩)

end Properties

/-- `newPropertiesFromList` folds the XML property list into a bag via the
evicting setters; an int value that fails to parse is stored as 0 (the Go
code ignores the `ParseInt` error), a bool is true exactly on "true",
any unrecognised type tag is stored as a string. -/
def newPropertiesFromList (l : List Property) : Properties :=
  l.foldl
    (fun ps i =>
      if i.ptype = "int" then ps.setInt i.name ((parseGoInt i.value).getD 0)
      else if i.ptype = "bool" then ps.setBool i.name (i.value = "true")
      else ps.setString i.name i.value)
    NewProperties

/-- Keys of each typed map of a bag are unique, as they are for a Go map. -/
def WFBag (p : Properties) : Prop :=
  (p.ints.map Prod.fst).Nodup ∧ (p.strings.map Prod.fst).Nodup
    ∧ (p.bools.map Prod.fst).Nodup

instance : DecidablePred WFBag := fun p => by
  unfold WFBag; infer_instance

theorem mapGet_eq_none_of_not_mem {κ α : Type} [DecidableEq κ]
    (l : List (κ × α)) (k : κ) (h : k ∉ l.map Prod.fst) : mapGet l k = none := by
  induction l with
  | nil => rfl
  | cons kv rest ih =>
    simp only [List.map_cons, List.mem_cons] at h
    push_neg at h
    have h1 : ¬ kv.1 = k := fun he => h.1 he.symm
    simp [mapGet, h1, ih h.2]

/-- Folding the entries of a unique-keyed list into a base map gives a map
that answers with the entry list first and falls back to the base. -/
theorem mapGet_foldl_mapSet {α : Type} (base entries : List (String × α)) (k : String)
    (h : (entries.map Prod.fst).Nodup) :
    mapGet (entries.foldl (fun acc kv => mapSet acc kv.1 kv.2) base) k
      = (mapGet entries k).or (mapGet base k) := by
  induction entries generalizing base with
  | nil => simp [mapGet, Option.or]
  | cons kv rest ih =>
    simp only [List.map_cons, List.nodup_cons] at h
    rw [List.foldl_cons, ih _ h.2]
    by_cases hk : kv.1 = k
    · have hnone : mapGet rest k = none := mapGet_eq_none_of_not_mem _ _ (hk ▸ h.1)
      simp [mapGet, hk, hnone, mapGet_mapSet, Option.or]
    · simp [mapGet, hk, mapGet_mapSet, Option.or]

/-- C2 counterexample input: bag A holds key "k" as the string "a". -/
def bagA : Properties := NewProperties.setString "k" "a"

/-- C2 counterexample input: bag B holds key "k" as the int 1. -/
def bagB : Properties := NewProperties.setInt "k" 1

/-- C2 counterexample: with A holding key "k" as a string and B holding it
as an int, A.Merge(B) leaves "k" present in A's string map (with A's old
value) as well as in the int map, contradicting the claim that the key
remains only under B's type: Merge writes each of B's three typed maps by
plain assignment and never evicts the key from the other two. -/
theorem merge_does_not_evict_counterexample :
    (bagA.merge bagB).getString "k" = some "a"
      ∧ (bagA.merge bagB).getInt "k" = some 1 := by decide

/-- C2 amended: Merge is last-writer-wins per typed map: in each of the
three typed maps of A.Merge(B), a key present in B has B's value, and a
key absent from B keeps A's binding (so keys unique to A are preserved,
and a key held under different types in A and B ends up present under
both types). Stated for B with unique keys per typed map, as for a Go map. -/
theorem merge_lastWriterWins_perType (p o : Properties) (k : String) (h : WFBag o) :
    (p.merge o).getInt k = (o.getInt k).or (p.getInt k)
      ∧ (p.merge o).getString k = (o.getString k).or (p.getString k)
      ∧ (p.merge o).getBool k = (o.getBool k).or (p.getBool k) := by
  refine ⟨?_, ?_, ?_⟩
  · exact mapGet_foldl_mapSet p.ints o.ints k h.1
  · exact mapGet_foldl_mapSet p.strings o.strings k h.2.1
  · exact mapGet_foldl_mapSet p.bools o.bools k h.2.2

/-- Witness for the amended C2 theorem at the counterexample bags. -/
theorem merge_lastWriterWins_perType_witness :
    (bagA.merge bagB).getInt "k" = ((bagB.getInt "k").or (bagA.getInt "k"))
      ∧ (bagA.merge bagB).getString "k" = ((bagB.getString "k").or (bagA.getString "k"))
      ∧ (bagA.merge bagB).getBool "k" = ((bagB.getBool "k").or (bagA.getBool "k")) :=
  merge_lastWriterWins_perType bagA bagB "k" (by decide)

/-- An image reference: source path and pixel dimensions. -/
structure Image where
  source : String
  width : Int
  height : Int
deriving DecidableEq

/-- A tile of a tileset: id, image, XML property list. -/
structure Tile where
  id : Nat
  image : Image
  properties : List Property
deriving DecidableEq

/-- The default value produced when dereferencing an invalid tile pointer
(never reached on the executions the theorems are about). -/
def tile0 : Tile := ⟨0, ⟨"", 0, 0⟩, []⟩

/-- A tileset; `tiles`, `tileByID` and `tileBySrc` hold pointers (indices
into the owning map's `heap`) standing for the Go `*Tile` pointers. -/
structure Tileset where
  firstGID : Nat
  name : String
  tileWidth : Int
  tileHeight : Int
  properties : List Property
  tiles : List Nat
  tileByID : List (Nat × Nat)
  tileBySrc : List (String × Nat)
deriving DecidableEq

/-- The TMX data element: encoding, compression and the raw textual grid. -/
structure TMXData where
  encoding : String
  compression : String
  rawData : String
deriving DecidableEq

/-- A tile layer; `decodedTiles` is the in-memory dense grid of tile ids. -/
structure TileLayer where
  id : Nat
  width : Int
  height : Int
  name : String
  properties : List Property
  data : TMXData
  decodedTiles : List Nat
deriving DecidableEq

/-- An image layer. -/
structure ImageLayer where
  id : Nat
  name : String
  image : Image
deriving DecidableEq

/-- The in-memory map; `heap` is the arena holding the Tile objects that
the tileset's pointer fields refer to, `nextID` the id allocator. -/
structure Map where
  orientation : String
  width : Int
  height : Int
  tileWidth : Int
  tileHeight : Int
  rootProperties : List Property
  tilesets : List Tileset
  imageLayers : List ImageLayer
  tileLayers : List TileLayer
  heap : List Tile
  nextID : Nat
deriving DecidableEq

/-- Dereference a tile pointer in the map's arena. -/
def Map.tileAt (m : Map) (p : Nat) : Tile := m.heap.getD p tile0

/-- Map creation config (widths and heights are Go uints). -/
structure Config where
  mapHeight : Nat
  mapWidth : Nat
  tileWidth : Nat
  tileHeight : Nat

/-- `newTileset` makes a new tileset starting at `first`, with empty
tile list and empty lookup indices. -/
def newTileset (name : String) (first : Nat) : Tileset :=
  ⟨first, name, 0, 0, [], [], [], []⟩

/-- `New` returns a new map with defaults set: orthogonal orientation,
one default tileset with firstGID 1, no layers, allocator at 1. -/
def New (cfg : Config) : Map :=
  { orientation := "orthogonal"
    width := (cfg.mapWidth : Int)
    height := (cfg.mapHeight : Int)
    tileWidth := (cfg.tileWidth : Int)
    tileHeight := (cfg.tileHeight : Int)
    rootProperties := []
    tilesets := [newTileset "default" 1]
    imageLayers := []
    tileLayers := []
    heap := []
    nextID := 1 }

/-- `newTilelayer` appends a fresh layer of the map's dimensions named
`name`, with csv encoding and an all-zero grid of length width*height;
returns the new map and the index of the appended layer. -/
def Map.newTilelayer (m : Map) (name : String) : Map × Nat :=
  ({ m with
      tileLayers := m.tileLayers ++
        [⟨0, m.width, m.height, name, [], ⟨"csv", "", ""⟩,
          List.replicate (m.width * m.height).toNat 0⟩] },
    m.tileLayers.length)

/-- `newTile` registers a new tile for `source`: id from the allocator,
image of the map's tile dimensions, appended to the last tileset and to
both of its lookup indices; returns the new map and the tile's pointer. -/
def Map.newTile (m : Map) (source : String) : Map × Nat :=
  let t : Tile := ⟨m.nextID, ⟨source, m.tileWidth, m.tileHeight⟩, []⟩
  let p := m.heap.length
  let i := m.tilesets.length - 1
  let ts := m.tilesets.getD i (newTileset "" 0)
  let ts' := { ts with
      tiles := ts.tiles ++ [p]
      tileByID := mapSet ts.tileByID t.id p
      tileBySrc := mapSet ts.tileBySrc source p }
  ({ m with
      tilesets := m.tilesets.set i ts'
      heap := m.heap ++ [t]
      nextID := m.nextID + 1 }, p)

/-- The position of the first tile layer whose name equals the decimal
rendering of `z` (the layer the Go loops over `m.TileLayers` select). -/
def Map.findLayerIdx (m : Map) (z : Int) : Option Nat :=
  m.tileLayers.findIdx? (fun tl => toString z = tl.name)

/-- The first tileset containing `source` in its source index, as the Go
loop over `m.Tilesets` breaking on the first hit. -/
def Map.findTileBySrc (m : Map) (source : String) : Option Nat :=
  (m.tilesets.filterMap (fun ts => mapGet ts.tileBySrc source)).head?

/-- The shared tile-resolution block of Set and SetProperties: look the
source up across the tilesets and allocate a new tile when unseen. -/
def Map.findOrCreateTile (m : Map) (source : String) : Map × Nat :=
  match m.findTileBySrc source with
  | some p => (m, p)
  | none => m.newTile source

/-- `ZLevels` collects the layer names that parse as integers, sorted
ascending (duplicates kept, as by the Go append plus sort.Ints). -/
def insertSorted (a : Int) : List Int → List Int
  | [] => [a]
  | b :: bs => if b ≤ a then b :: insertSorted a bs else a :: b :: bs

/-- Ascending insertion sort of a list of ints (the model of sort.Ints). -/
def sortInts : List Int → List Int
  | [] => []
  | a :: as => insertSorted a (sortInts as)

/-- `ZLevels` returns all z-level layer names (those parsing as ints)
sorted low to high. -/
def Map.ZLevels (m : Map) : List Int :=
  sortInts (m.tileLayers.filterMap (fun tl => parseGoInt tl.name))

/-- `At` returns the properties of the tile at (x, y, z), or none: none if
no layer is named after `z`, if the flattened index is out of the layer's
grid, if the cell holds the nil tile 0, or if the first tileset's id
index has no entry for the cell's id (the Go loop over tilesets returns
during its first iteration either way). -/
def Map.At (m : Map) (x y z : Int) : Option Properties :=
  match m.tileLayers.find? (fun tl => toString z = tl.name) with
  | none => none
  | some l =>
    let index := y * m.width + x
    if (l.decodedTiles.length : Int) ≤ index ∨ index < 0 then none
    else
      let id := l.decodedTiles.getD index.toNat 0
      if id = 0 then none
      else
        match m.tilesets with
        | [] => none
        | ts :: _ =>
          match mapGet ts.tileByID id with
          | none => none
          | some p => some (newPropertiesFromList (m.tileAt p).properties)

/-- The body of `Set` once the flattened index has been computed: find or
lazily create the layer, bounds-check the index against the layer's grid
(the out-of-bounds error keeps any layer just appended), write the nil
tile for the empty source, then resolve the source to a tile across the
tilesets, allocating a new tile when unseen, and write its id. The
result pairs the new map state with the error, if any (the Go method
mutates the receiver and returns only an error). -/
def Map.setIndex (m : Map) (z : Int) (index : Int) (source : String) :
    Map × Option String :=
  let found := m.findLayerIdx z
  let ml : Map × Nat :=
    match found with
    | some i => (m, i)
    | none => m.newTilelayer (toString z)
  let m1 := ml.1
  let li := ml.2
  let l := m1.tileLayers.getD li ⟨0, 0, 0, "", [], ⟨"", "", ""⟩, []⟩
  if (l.decodedTiles.length : Int) ≤ index ∨ index < 0 then
    (m1, some "index is out of bounds for this map")
  else
    let l1 := if source = "" then
        { l with decodedTiles := l.decodedTiles.set index.toNat 0 } else l
    let m2 := { m1 with tileLayers := m1.tileLayers.set li l1 }
    let mp := m2.findOrCreateTile source
    let m3 := mp.1
    let tid := (m3.tileAt mp.2).id
    let l2 := { l1 with decodedTiles := l1.decodedTiles.set index.toNat tid }
    ({ m3 with tileLayers := m3.tileLayers.set li l2 }, none)

/-- `Set` writes the tile source for (x,y,z); the Go code computes the
flattened index `y*width + x` once and uses only that index afterwards. -/
def Map.set (m : Map) (x y z : Int) (source : String) : Map × Option String :=
  m.setIndex z (y * m.width + x) source

/-- `Properties` returns the bag of the tile registered for `source`:
none for the empty source and none when no tileset knows the source. -/
def Map.properties (m : Map) (source : String) : Option Properties :=
  if source = "" then none
  else
    match m.findTileBySrc source with
    | none => none
    | some p => some (newPropertiesFromList (m.tileAt p).properties)

/-- `SetProperties` stores `inBag.toList` on the tile for `source`,
creating the tile if needed; a no-op for the empty source. `inBag` is
the possibly-nil Go `*Properties` argument: storing a nil bag
dereferences nil inside `toList`, a Go panic, modelled as `none`. -/
def Map.setProperties (m : Map) (source : String) (inBag : Option Properties) :
    Option Map :=
  if source = "" then some m
  else
    let mp := m.findOrCreateTile source
    match inBag with
    | none => none
    | some b =>
      some { mp.1 with
        heap := mp.1.heap.set mp.2
          { mp.1.tileAt mp.2 with properties := b.toList } }

/-- The Go expression `p.Merge(o)` on possibly-nil `*Properties` values:
a nil `o` is dereferenced by the first range loop (panic); a nil `p` is
dereferenced by a map assignment as soon as any of `o`'s three maps is
non-empty (panic), and is returned unchanged (still nil) when all three
are empty. The outer `none` models the panic. -/
def mergeGo (p o : Option Properties) : Option (Option Properties) :=
  match o with
  | none => none
  | some ob =>
    match p with
    | some pb => some (some (pb.merge ob))
    | none =>
      if ob.ints = [] ∧ ob.strings = [] ∧ ob.bools = [] then some none else none

/-- The scan of the auto z-offset resolution: try `m.At x y i` for
i = fuel-1, fuel-2, ..., 0 and return the first i with a non-absent
result. -/
def Map.scanDown (m : Map) (x y : Int) : Nat → Option Int
  | 0 => none
  | i + 1 => if (m.At x y (i : Int)).isSome then some (i : Int) else m.scanDown x y i

/-- The shared auto z-offset prologue of `Fits` and `Add`: a negative
`zoffset` is replaced by the scan over i = len(ZLevels)-1 down to 0 (the
loop variable i, not the level value levels[i], is what the Go code
passes to `At` and assigns to zoffset), defaulting to 0. -/
def Map.resolveZ (m : Map) (x y zoffset : Int) : Int :=
  if zoffset < 0 then (m.scanDown x y (m.ZLevels).length).getD 0
  else zoffset

/-- `Fits` returns whether copying map `o` to (x,y,zoffset) avoids both
overwriting an existing tile and leaving the map bounds: for every layer
of `o` named after an integer z and every non-nil cell, the destination
must be inside the width and height of `m` and `m.At` there must be
absent. -/
def Map.fits (m : Map) (x y zoffset : Int) (o : Map) : Bool :=
  let zo := m.resolveZ x y zoffset
  o.tileLayers.all fun tl =>
    match parseGoInt tl.name with
    | none => true
    | some z =>
      tl.decodedTiles.enum.all fun iv =>
        if iv.2 = 0 then true
        else
          let tx : Int := (iv.1 : Int).tmod o.width
          let ty : Int := (iv.1 : Int).tdiv o.width
          if tx + x < 0 ∨ tx + x ≥ m.width ∨ ty + y < 0 ∨ ty + y ≥ m.height then
            false
          else (m.At (tx + x) (ty + y) (z + zo)).isNone

/-- The flattened cell worklist of `Add`: for each layer of `o` whose
name parses as an integer z, its cells in index order as (z, index, id)
triples; skipped layers contribute nothing, exactly as the Go `continue`. -/
def addCells (o : Map) : List (Int × Nat × Nat) :=
  o.tileLayers.flatMap fun tl =>
    match parseGoInt tl.name with
    | none => []
    | some z => tl.decodedTiles.enum.map fun iv => (z, iv.1, iv.2)

/-- One cell of the `Add` traversal: skip nil tiles and ids missing from
the object's first tileset index; otherwise write the source into the
base map (the Set error is discarded, keeping the partially mutated
state), then store the merge of the base map's bag for the source with
the object's bag. `none` propagates the Go panics of `mergeGo` and of
`setProperties` on a nil bag. -/
def addStep (ts : Tileset) (o : Map) (x y zo : Int) (m : Map)
    (c : Int × Nat × Nat) : Option Map :=
  if c.2.2 = 0 then some m
  else
    match mapGet ts.tileByID c.2.2 with
    | none => some m
    | some p =>
      let tx : Int := (c.2.1 : Int).tmod o.width
      let ty : Int := (c.2.1 : Int).tdiv o.width
      let src := (o.tileAt p).image.source
      let m1 := (m.set (tx + x) (ty + y) (c.1 + zo) src).1
      match mergeGo (m1.properties src) (o.properties src) with
      | none => none
      | some merged => m1.setProperties src merged

/-- `Add` copies map `o` into `m` starting at (x,y,zoffset): the first
tileset of `o` is taken up front (empty tilesets would crash, modelled
none), the z-offset prologue runs, then every cell of the worklist is
processed in order. -/
def Map.add (m : Map) (x y zoffset : Int) (o : Map) : Option Map :=
  match o.tilesets with
  | [] => none
  | ts :: _ =>
    let zo := m.resolveZ x y zoffset
    (addCells o).foldlM (addStep ts o x y zo) m

/-- A one-by-one map config. -/
def cfg11 : Config := ⟨1, 1, 32, 32⟩

/-- C5 failing input: writing the empty source into a fresh 1x1 map. -/
def mEmptySet : Map × Option String := (New cfg11).set 0 0 0 ""

/-- C5: the Set doc comment promises that passing "" sets the nil tile
(id 0), but the branch writing 0 is not followed by a return: the code
falls through, allocates a real Tile (id 1) for the empty source and
stores that id, so the cell is 1, the tileset gained a tile whose image
source is "", and the properties lookup at the cell is non-absent. -/
theorem set_empty_source_allocates_tile :
    mEmptySet.2 = none
      ∧ mEmptySet.1.tileLayers.map TileLayer.decodedTiles = [[1]]
      ∧ mEmptySet.1.heap = [⟨1, ⟨"", 32, 32⟩, []⟩]
      ∧ (mEmptySet.1.At 0 0 0).isSome = true := by decide

/-- C4 failing input: a map whose only occupied layer is named "5", with
its single cell occupied. -/
def mLevelFive : Map := ((New cfg11).set 0 0 5 "a").1

/-- C4 probe object: a 1x1 object with one occupied cell on layer "0". -/
def oProbe : Map := ((New cfg11).set 0 0 0 "b").1

/-- C4: with occupied z-levels [5] and (0,0,5) occupied, the claim says a
negative zoffset resolves to level 5 (the highest occupied level whose
cell is non-absent); the code instead iterates the loop index i over
len(levels)-1 .. 0 and passes i itself to At, so it probes level 0 only,
finds nothing, and resolves to 0. Consequently Fits reports true (the
claimed resolution 5 would collide at (0,0,5)) and Add writes at level 0. -/
theorem autoZOffset_uses_indices_not_levels :
    mLevelFive.ZLevels = [5]
      ∧ (mLevelFive.At 0 0 5).isSome = true
      ∧ (mLevelFive.At 0 0 0).isSome = false
      ∧ mLevelFive.resolveZ 0 0 (-1) = 0
      ∧ mLevelFive.fits 0 0 (-1) oProbe = true
      ∧ (mLevelFive.add 0 0 (-1) oProbe).map
          (fun m2 => m2.tileLayers.map (fun tl => (tl.name, tl.decodedTiles)))
          = some [("5", [1]), ("0", [2])] := by decide

/-- Layers of a map all carry dense grids of the map's extent (true of
every layer the library itself creates). -/
def WFLayers (m : Map) : Prop :=
  ∀ tl ∈ m.tileLayers, tl.decodedTiles.length = (m.width * m.height).toNat

instance (m : Map) : Decidable (WFLayers m) := by
  unfold WFLayers
  infer_instance

theorem findIdx_mem_getD {α : Type} (l : List α) (p : α → Bool) (i : Nat) (d : α)
    (h : l.findIdx? p = some i) : l.getD i d ∈ l := by
  induction l generalizing i with
  | nil => simp [List.findIdx?] at h
  | cons a rest ih =>
    rw [List.findIdx?_cons] at h
    by_cases hp : p a
    · simp [hp] at h
      simp [← h, List.getD]
    · simp [hp] at h
      obtain ⟨j, hj, rfl⟩ := h
      simpa [List.getD] using Or.inr (ih j hj)

/-- C9: Set rejects a write exactly when the flattened index y*width+x
leaves [0, width*height); it never checks x or y separately, so on any
map of height above one the call Set(width, 0, z, src) succeeds and is
literally the same operation as Set(0, 1, z, src): both reduce to the
same flattened index. -/
theorem set_checks_flattened_index_only (m : Map) (x y z : Int) (src : String)
    (hW : 0 < m.width) (hH : 0 < m.height) (hwf : WFLayers m) :
    ((m.set x y z src).2 = none
        ↔ (0 ≤ y * m.width + x ∧ y * m.width + x < m.width * m.height))
      ∧ m.set m.width 0 z src = m.set 0 1 z src
      ∧ (1 < m.height → (m.set m.width 0 z src).2 = none) := by
  have key : ∀ idx : Int, ((m.setIndex z idx src).2 = none
      ↔ (0 ≤ idx ∧ idx < m.width * m.height)) := by
    intro idx
    unfold Map.setIndex
    have hl : ∀ (ml : Map × Nat), (ml = match m.findLayerIdx z with
        | some i => (m, i)
        | none => m.newTilelayer (toString z)) →
        ((ml.1.tileLayers.getD ml.2 ⟨0, 0, 0, "", [], ⟨"", "", ""⟩, []⟩).decodedTiles.length
          = (m.width * m.height).toNat) := by
      intro ml hml
      rcases hfind : m.findLayerIdx z with _ | i
      · rw [hfind] at hml
        subst hml
        simp only [Map.newTilelayer]
        rw [List.getD_eq_getElem?_getD]
        simp
      · rw [hfind] at hml
        subst hml
        exact hwf _ (findIdx_mem_getD _ _ _ _ hfind)
    rcases hfind : m.findLayerIdx z with _ | i
    all_goals {
      simp only [hfind]
      have hlen2 := hl _ (by rw [hfind])
      simp only [hfind] at hlen2
      rw [hlen2]
      have hcast : (((m.width * m.height).toNat : Int)) = m.width * m.height :=
        Int.toNat_of_nonneg (by positivity)
      constructor
      · intro hnone
        by_contra hc
        rw [if_pos] at hnone
        · exact Option.noConfusion hnone
        · omega
      · intro hin
        rw [if_neg]
        omega
    }
  refine ⟨key (y * m.width + x), ?_, ?_⟩
  · show m.setIndex z (0 * m.width + m.width) src = m.setIndex z (1 * m.width + 0) src
    have he : (0 : Int) * m.width + m.width = 1 * m.width + 0 := by ring
    rw [he]
  · intro h2
    have := key (0 * m.width + m.width)
    rw [Map.set]
    rw [this]
    constructor
    · omega
    · nlinarith

/-- Witness input for C9 and C3: a fresh 2x2 map. -/
def m22 : Map := New ⟨2, 2, 32, 32⟩

/-- Witness for C9 on a concrete 2x2 map. -/
theorem set_checks_flattened_index_only_witness :
    (((m22.set 0 0 0 "a").2 = none
        ↔ (0 ≤ 0 * m22.width + 0 ∧ 0 * m22.width + 0 < m22.width * m22.height))
      ∧ m22.set m22.width 0 0 "a" = m22.set 0 1 0 "a"
      ∧ (1 < m22.height → (m22.set m22.width 0 0 "a").2 = none)) :=
  set_checks_flattened_index_only m22 0 0 0 "a" (by decide) (by decide)
    (by intro tl h; simp [m22, New] at h)

theorem resolveZ_of_nonneg (m : Map) (x y z : Int) (hz : 0 ≤ z) :
    m.resolveZ x y z = z := by
  simp [Map.resolveZ, not_lt.mpr hz]

/-- A destination cell of a placement is bad when it leaves the base
map's bounds or its properties lookup is non-absent. -/
theorem fits_eq_false_char (m o : Map) (x y z : Int) (hz : 0 ≤ z) :
    (m.fits x y z o = false) ↔
      ∃ tl ∈ o.tileLayers, ∃ zl : Int, parseGoInt tl.name = some zl ∧
        ∃ iv ∈ tl.decodedTiles.enum, iv.2 ≠ 0 ∧
          ((iv.1 : Int).tmod o.width + x < 0 ∨ (iv.1 : Int).tmod o.width + x ≥ m.width
            ∨ (iv.1 : Int).tdiv o.width + y < 0 ∨ (iv.1 : Int).tdiv o.width + y ≥ m.height
            ∨ (m.At ((iv.1 : Int).tmod o.width + x) ((iv.1 : Int).tdiv o.width + y)
                (zl + z)).isSome) := by
  unfold Map.fits
  rw [resolveZ_of_nonneg m x y z hz]
  rw [List.all_eq_false]
  constructor
  · rintro ⟨tl, htl, hbad⟩
    refine ⟨tl, htl, ?_⟩
    rcases hp : parseGoInt tl.name with _ | zl
    · rw [hp] at hbad; simp at hbad
    · rw [hp] at hbad
      refine ⟨zl, rfl, ?_⟩
      rw [Bool.not_eq_true, List.all_eq_false] at hbad
      obtain ⟨iv, hiv, hbadiv⟩ := hbad
      refine ⟨iv, hiv, ?_⟩
      by_cases h0 : iv.2 = 0
      · simp [h0] at hbadiv
      · refine ⟨h0, ?_⟩
        rw [if_neg h0] at hbadiv
        by_cases hb : (iv.1 : Int).tmod o.width + x < 0 ∨ (iv.1 : Int).tmod o.width + x ≥ m.width
            ∨ (iv.1 : Int).tdiv o.width + y < 0 ∨ (iv.1 : Int).tdiv o.width + y ≥ m.height
        · tauto
        · rw [if_neg hb] at hbadiv
          simp only [Bool.not_eq_true, Option.isNone_eq_false_iff] at hbadiv
          simp only [Option.isSome_iff_ne_none] at hbadiv ⊢
          tauto
  · rintro ⟨tl, htl, zl, hp, iv, hiv, h0, hbad⟩
    refine ⟨tl, htl, ?_⟩
    rw [hp]
    rw [Bool.not_eq_true, List.all_eq_false]
    refine ⟨iv, hiv, ?_⟩
    rw [if_neg h0]
    by_cases hb : (iv.1 : Int).tmod o.width + x < 0 ∨ (iv.1 : Int).tmod o.width + x ≥ m.width
        ∨ (iv.1 : Int).tdiv o.width + y < 0 ∨ (iv.1 : Int).tdiv o.width + y ≥ m.height
    · simp [hb]
    · rw [if_neg hb]
      rcases hbad with h | h | h | h | h
      · exact absurd (Or.inl h) hb
      · exact absurd (Or.inr (Or.inl h)) hb
      · exact absurd (Or.inr (Or.inr (Or.inl h))) hb
      · exact absurd (Or.inr (Or.inr (Or.inr h))) hb
      · simp only [Bool.not_eq_true, Option.isNone_eq_false_iff]
        simpa [Option.isSome_iff_ne_none] using h

/-- C3: for a non-negative zoffset, Fits returns false exactly when some
non-nil cell of some integer-named layer of the object maps, after
adding the anchor and z-offset, outside the base map's width or height
bounds or onto a cell whose properties lookup is non-absent (the object
width must be positive: a zero width makes the Go modulus panic). -/
theorem fits_false_iff_collision_or_off_map (m o : Map) (x y z : Int)
    (hz : 0 ≤ z) (_hw : 0 < o.width) :
    (m.fits x y z o = false) ↔
      ∃ tl ∈ o.tileLayers, ∃ zl : Int, parseGoInt tl.name = some zl ∧
        ∃ iv ∈ tl.decodedTiles.enum, iv.2 ≠ 0 ∧
          ((iv.1 : Int).tmod o.width + x < 0 ∨ (iv.1 : Int).tmod o.width + x ≥ m.width
            ∨ (iv.1 : Int).tdiv o.width + y < 0 ∨ (iv.1 : Int).tdiv o.width + y ≥ m.height
            ∨ (m.At ((iv.1 : Int).tmod o.width + x) ((iv.1 : Int).tdiv o.width + y)
                (zl + z)).isSome) :=
  fits_eq_false_char m o x y z hz

theorem findIdx?_lt_length {α : Type} (l : List α) (p : α → Bool) (i : Nat)
    (h : l.findIdx? p = some i) : i < l.length := by
  induction l generalizing i with
  | nil => simp [List.findIdx?] at h
  | cons a rest ih =>
    rw [List.findIdx?_cons] at h
    by_cases hp : p a
    · simp [hp] at h
      simp [← h]
    · simp [hp] at h
      obtain ⟨j, hj, rfl⟩ := h
      have := ih j hj
      simp
      omega

theorem findIdx?_prefix_false {α : Type} (l : List α) (p : α → Bool) (i : Nat)
    (h : l.findIdx? p = some i) :
    ∀ j b, j < i → l[j]? = some b → ¬ p b := by
  induction l generalizing i with
  | nil => simp [List.findIdx?] at h
  | cons a rest ih =>
    rw [List.findIdx?_cons] at h
    by_cases hp : p a
    · simp [hp] at h
      intro j b hj _
      exfalso
      omega
    · simp [hp] at h
      obtain ⟨j0, hj0, rfl⟩ := h
      intro j b hj hb
      match j with
      | 0 =>
        simp at hb
        subst hb
        simp [hp]
      | j' + 1 =>
        simp at hb
        exact ih j0 hj0 j' b (by omega) hb

theorem find?_set_at_findIdx? {α : Type} (l : List α) (p : α → Bool) (i : Nat) (a : α)
    (h : l.findIdx? p = some i) (ha : p a) : (l.set i a).find? p = some a := by
  induction l generalizing i with
  | nil => simp [List.findIdx?] at h
  | cons b rest ih =>
    rw [List.findIdx?_cons] at h
    by_cases hp : p b
    · simp [hp] at h
      subst h
      simp [List.set, List.find?, ha]
    · simp [hp] at h
      obtain ⟨j, hj, rfl⟩ := h
      simp only [List.set, List.find?, hp]
      exact ih j hj

theorem find?_set_untouched {α : Type} (l : List α) (p : α → Bool) (i : Nat) (a : α)
    (ha : ¬ p a = true) (hi : ∀ b, l[i]? = some b → ¬ p b = true) :
    (l.set i a).find? p = l.find? p := by
  induction l generalizing i with
  | nil => simp
  | cons b rest ih =>
    match i with
    | 0 =>
      have hb : ¬ p b = true := hi b (by simp)
      show (a :: rest).find? p = (b :: rest).find? p
      rw [List.find?_cons_of_neg rest ha, List.find?_cons_of_neg rest hb]
    | j + 1 =>
      show (b :: rest.set j a).find? p = (b :: rest).find? p
      by_cases hb : p b
      · rw [List.find?_cons_of_pos _ hb, List.find?_cons_of_pos _ hb]
      · rw [List.find?_cons_of_neg _ hb, List.find?_cons_of_neg _ hb]
        exact ih j (fun c hc => hi c (by simpa using hc))

/-- The single tileset of a well-formed map. -/
def ts0 (m : Map) : Tileset := m.tilesets.headD (newTileset "" 0)

/-- Well-formedness of an in-memory map, as maintained by the library:
exactly one tileset, positive extent, dense layer grids of the map's
size, an allocator at 1 or above, and a source index whose entries point
at arena tiles with non-zero ids that the id index also knows. -/
def WFMap (m : Map) : Prop :=
  m.tilesets.length = 1
    ∧ 0 < m.width ∧ 0 < m.height
    ∧ WFLayers m
    ∧ 1 ≤ m.nextID
    ∧ ∀ src p, mapGet (ts0 m).tileBySrc src = some p →
        p < m.heap.length ∧ (m.tileAt p).id ≠ 0
          ∧ (mapGet (ts0 m).tileByID (m.tileAt p).id).isSome

theorem tilesets_eq_single (m : Map) (h : m.tilesets.length = 1) :
    m.tilesets = [ts0 m] := by
  rcases hm : m.tilesets with _ | ⟨ts, rest⟩
  · rw [hm] at h; simp at h
  · rw [hm] at h
    simp at h
    simp [ts0, hm, h]

theorem findTileBySrc_single (m : Map) (src : String) (h : m.tilesets.length = 1) :
    m.findTileBySrc src = mapGet (ts0 m).tileBySrc src := by
  rw [Map.findTileBySrc, tilesets_eq_single m h]
  rcases hg : mapGet (ts0 m).tileBySrc src with _ | p
  · simp [List.filterMap, hg]
  · simp [List.filterMap, hg]

/-- What a non-absent At means: a first layer named after z, an in-range
flattened index, a non-zero cell value known to the head tileset's id
index. -/
theorem At_isSome_iff (m : Map) (x y z : Int) :
    (m.At x y z).isSome ↔
      ∃ l, m.tileLayers.find? (fun tl => toString z = tl.name) = some l
        ∧ 0 ≤ y * m.width + x
        ∧ y * m.width + x < (l.decodedTiles.length : Int)
        ∧ l.decodedTiles.getD (y * m.width + x).toNat 0 ≠ 0
        ∧ ∃ ts rest, m.tilesets = ts :: rest
            ∧ (mapGet ts.tileByID
                (l.decodedTiles.getD (y * m.width + x).toNat 0)).isSome := by
  unfold Map.At
  rcases hf : m.tileLayers.find? (fun tl => toString z = tl.name) with _ | l
  · rw [hf]
    simp
  · rw [hf]
    dsimp only
    by_cases hb : (l.decodedTiles.length : Int) ≤ y * m.width + x ∨ y * m.width + x < 0
    · rw [if_pos hb]
      simp only [Option.isSome_none, Bool.false_eq_true, false_iff]
      rintro ⟨l2, hl2, h1, h2, _⟩
      injection hl2 with hl2
      subst hl2
      omega
    · rw [if_neg hb]
      push_neg at hb
      by_cases h0 : l.decodedTiles.getD (y * m.width + x).toNat 0 = 0
      · rw [if_pos h0]
        simp only [Option.isSome_none, Bool.false_eq_true, false_iff]
        rintro ⟨l2, hl2, _, _, hne, _⟩
        injection hl2 with hl2
        subst hl2
        exact hne h0
      · rw [if_neg h0]
        rcases hts : m.tilesets with _ | ⟨ts, rest⟩
        · simp
        · dsimp only
          rcases hid : mapGet ts.tileByID (l.decodedTiles.getD (y * m.width + x).toNat 0)
              with _ | p
          · simp only [Option.isSome_none, Bool.false_eq_true, false_iff]
            rintro ⟨l2, hl2, _, _, _, ts', rest', hts', hsome⟩
            injection hl2 with hl2
            subst hl2
            injection hts' with h1 h2
            subst h1
            rw [hid] at hsome
            simp at hsome
          · simp only [Option.isSome_some, true_iff]
            exact ⟨l, rfl, by omega, by omega, h0, ts, rest, rfl, by rw [hid]; rfl⟩

theorem findIdx?_getElem? {α : Type} (l : List α) (p : α → Bool) (i : Nat)
    (h : l.findIdx? p = some i) : ∃ b, l[i]? = some b ∧ p b := by
  induction l generalizing i with
  | nil => simp [List.findIdx?] at h
  | cons a rest ih =>
    rw [List.findIdx?_cons] at h
    by_cases hp : p a
    · simp [hp] at h
      exact ⟨a, by simp [← h], hp⟩
    · simp [hp] at h
      obtain ⟨j, hj, rfl⟩ := h
      obtain ⟨b, hb, hpb⟩ := ih j hj
      exact ⟨b, by simpa using hb, hpb⟩

theorem find?_eq_getElem?_of_findIdx? {α : Type} (l : List α) (p : α → Bool) (i : Nat)
    (h : l.findIdx? p = some i) : l.find? p = l[i]? := by
  induction l generalizing i with
  | nil => simp [List.findIdx?] at h
  | cons a rest ih =>
    rw [List.findIdx?_cons] at h
    by_cases hp : p a
    · simp [hp] at h
      rw [List.find?_cons_of_pos _ hp]
      simp [← h]
    · simp [hp] at h
      obtain ⟨j, hj, rfl⟩ := h
      rw [List.find?_cons_of_neg _ hp]
      simpa using ih j hj

theorem findLayerIdx_none_find? (m : Map) (z : Int) (h : m.findLayerIdx z = none) :
    m.tileLayers.find? (fun tl => toString z = tl.name) = none := by
  rw [List.find?_eq_none]
  intro a ha
  rw [Map.findLayerIdx, List.findIdx?_eq_none_iff] at h
  exact fun hpa => by simpa [hpa] using h a ha

theorem getD_concat_self {α : Type} (l : List α) (a d : α) :
    (l ++ [a]).getD l.length d = a := by
  rw [List.getD_eq_getElem?_getD, List.getElem?_concat_length]
  rfl

theorem getD_append_left {α : Type} (l l2 : List α) (d : α) (i : Nat)
    (h : i < l.length) : (l ++ l2).getD i d = l.getD i d := by
  rw [List.getD_eq_getElem?_getD, List.getElem?_append_left h,
    ← List.getD_eq_getElem?_getD]

/-- The tile-resolution block leaves the layer grid and extent alone,
preserves well-formedness, and hands back a pointer to a registered tile
with a non-zero id known to the id index; the id index only grows. -/
theorem findOrCreateTile_spec (m : Map) (src : String) (hwf : WFMap m) :
    WFMap (m.findOrCreateTile src).1
      ∧ (m.findOrCreateTile src).1.tileLayers = m.tileLayers
      ∧ (m.findOrCreateTile src).1.width = m.width
      ∧ (m.findOrCreateTile src).1.height = m.height
      ∧ (m.findOrCreateTile src).1.tilesets.length = 1
      ∧ ((m.findOrCreateTile src).1.tileAt (m.findOrCreateTile src).2).id ≠ 0
      ∧ (mapGet (ts0 (m.findOrCreateTile src).1).tileByID
          (((m.findOrCreateTile src).1.tileAt (m.findOrCreateTile src).2).id)).isSome
      ∧ (∀ i, (mapGet (ts0 m).tileByID i).isSome →
          (mapGet (ts0 (m.findOrCreateTile src).1).tileByID i).isSome) := by
  obtain ⟨hts1, hW, hH, hwl, hnid, hsrc⟩ := hwf
  unfold Map.findOrCreateTile
  rcases hf : m.findTileBySrc src with _ | p
  · rw [Map.newTile]
    have hts := tilesets_eq_single m hts1
    rw [hts]
    simp only [List.length_cons, List.length_nil, Nat.sub_self, List.getD_cons_zero,
      List.set_cons_zero, Map.tileAt, ts0, List.headD_cons]
    have hcat : (m.heap ++
        [(⟨m.nextID, ⟨src, m.tileWidth, m.tileHeight⟩, []⟩ : Tile)]).getD
        m.heap.length tile0 = ⟨m.nextID, ⟨src, m.tileWidth, m.tileHeight⟩, []⟩ :=
      getD_concat_self _ _ _
    refine ⟨?_, trivial, trivial, trivial, by simp, ?_, ?_, ?_⟩
    · refine ⟨by simp, hW, hH, hwl, by dsimp only; omega, ?_⟩
      intro src' p' hp'
      simp only [ts0, List.headD_cons] at hp'
      rw [mapGet_mapSet] at hp'
      by_cases hs : src = src'
      · rw [if_pos hs] at hp'
        injection hp' with hp'
        subst hp'
        simp only [Map.tileAt, ts0, List.headD_cons]
        rw [hcat]
        refine ⟨by simp, by simp; omega, ?_⟩
        rw [mapGet_mapSet, if_pos rfl]
        rfl
      · rw [if_neg hs] at hp'
        obtain ⟨hlt, hid0, hidx⟩ := hsrc src' p' hp'
        simp only [Map.tileAt, ts0, List.headD_cons] at *
        rw [getD_append_left _ _ _ _ hlt]
        refine ⟨by simp; omega, hid0, ?_⟩
        rw [mapGet_mapSet]
        by_cases hni : m.nextID = (m.heap.getD p' tile0).id
        · rw [if_pos hni]; rfl
        · rw [if_neg hni]; exact hidx
    · rw [hcat]
      simp only [ne_eq]
      omega
    · rw [hcat]
      rw [mapGet_mapSet, if_pos rfl]
      rfl
    · intro i hi
      rw [mapGet_mapSet]
      by_cases hni : m.nextID = i
      · rw [if_pos hni]; rfl
      · rw [if_neg hni]; exact hi
  · rw [findTileBySrc_single m src hts1] at hf
    have hp := hsrc src p hf
    exact ⟨⟨hts1, hW, hH, hwl, hnid, hsrc⟩, rfl, rfl, rfl, hts1, hp.2.1, hp.2.2,
      fun i hi => hi⟩

theorem find?_append_some {α : Type} (xs ys : List α) (p : α → Bool) (a : α)
    (h : xs.find? p = some a) : (xs ++ ys).find? p = some a := by
  rw [List.find?_append, h]
  rfl

theorem getD_set_self {α : Type} (l : List α) (n : Nat) (a d : α) (h : n < l.length) :
    (l.set n a).getD n d = a := by
  rw [List.getD_eq_getElem?_getD, List.getElem?_set_self]
  · simp
  · exact h

theorem getD_set_ne {α : Type} (l : List α) (n k : Nat) (a d : α) (h : n ≠ k) :
    (l.set n a).getD k d = l.getD k d := by
  rw [List.getD_eq_getElem?_getD, List.getElem?_set_ne h, ← List.getD_eq_getElem?_getD]

theorem set_concat {α : Type} (xs : List α) (b c : α) :
    (xs ++ [b]).set xs.length c = xs ++ [c] := by
  simp [List.set_append]

/-- Effect of a cell write on a well-formed map: well-formedness and the
extent are preserved, every non-absent At stays non-absent, and a write
whose x and y both lie inside the map bounds succeeds and leaves the
written cell non-absent. -/
theorem set_spec (m : Map) (x y z : Int) (src : String) (hwf : WFMap m) :
    WFMap (m.set x y z src).1
      ∧ (m.set x y z src).1.width = m.width
      ∧ (m.set x y z src).1.height = m.height
      ∧ (∀ a b c : Int, (m.At a b c).isSome → ((m.set x y z src).1.At a b c).isSome)
      ∧ (0 ≤ x → x < m.width → 0 ≤ y → y < m.height →
          (m.set x y z src).2 = none ∧ ((m.set x y z src).1.At x y z).isSome) := by
  obtain ⟨hts1, hW, hH, hwl, hnid, hsrc⟩ := hwf
  have hwf : WFMap m := ⟨hts1, hW, hH, hwl, hnid, hsrc⟩
  rw [Map.set]
  set idx : Int := y * m.width + x with hidx
  unfold Map.setIndex
  have hWH : ((m.width * m.height).toNat : Int) = m.width * m.height :=
    Int.toNat_of_nonneg (by positivity)
  rcases hfind : m.findLayerIdx z with _ | li
  all_goals dsimp only
  · -- no layer named z: one is appended
    rw [Map.newTilelayer]
    dsimp only
    rw [getD_concat_self]
    set newl : TileLayer :=
      ⟨0, m.width, m.height, toString z, [], ⟨"csv", "", ""⟩,
        List.replicate (m.width * m.height).toNat 0⟩ with hnewl
    have hlen : (newl.decodedTiles.length : Int) = m.width * m.height := by
      simp [hnewl, hWH]
    by_cases hb : (newl.decodedTiles.length : Int) ≤ idx ∨ idx < 0
    · rw [if_pos hb]
      set mA : Map := { m with tileLayers := m.tileLayers ++ [newl] } with hmA
      have hwfA : WFMap mA := by
        refine ⟨hts1, hW, hH, ?_, hnid, hsrc⟩
        intro tl htl
        rcases List.mem_append.mp htl with h | h
        · exact hwl tl h
        · simp only [List.mem_singleton] at h
          subst h
          simp [hnewl]
      refine ⟨hwfA, rfl, rfl, ?_, ?_⟩
      · intro a b c hat
        rw [At_isSome_iff] at hat ⊢
        obtain ⟨la, hla, h1, h2, h3, ts, rest, hts, h4⟩ := hat
        exact ⟨la, find?_append_some _ _ _ _ hla, h1, h2, h3, ts, rest, hts, h4⟩
      · intro hx1 hx2 hy1 hy2
        exfalso
        rw [hlen] at hb
        have : 0 ≤ idx := by rw [hidx]; positivity
        have : idx < m.width * m.height := by rw [hidx]; nlinarith
        omega
    · rw [if_neg hb]
      push_neg at hb
      -- the layer list of the intermediate map
      set l1 : TileLayer := if src = "" then
          { newl with decodedTiles := newl.decodedTiles.set idx.toNat 0 } else newl
        with hl1
      have hl1name : l1.name = toString z := by
        rw [hl1]; split <;> simp [hnewl]
      have hl1len : l1.decodedTiles.length = newl.decodedTiles.length := by
        rw [hl1]; split <;> simp
      set m2 : Map := { m with
        tileLayers := (m.tileLayers ++ [newl]).set m.tileLayers.length l1 } with hm2
      have hm2L : m2.tileLayers = m.tileLayers ++ [l1] := by
        rw [hm2]; exact set_concat _ _ _
      have hwf2 : WFMap m2 := by
        refine ⟨hts1, hW, hH, ?_, hnid, hsrc⟩
        intro tl htl
        rw [hm2L] at htl
        rcases List.mem_append.mp htl with h | h
        · exact hwl tl h
        · simp only [List.mem_singleton] at h
          subst h
          show l1.decodedTiles.length = _
          rw [hl1len]
          simp [hnewl]
      obtain ⟨hwf3, hL3, hW3, hH3, hts3, hid3, hbyid3, hmono3⟩ :=
        findOrCreateTile_spec m2 src hwf2
      set r := m2.findOrCreateTile src with hr
      set tid := ((r.1.tileAt r.2).id) with htid
      set l2 : TileLayer := { l1 with decodedTiles := l1.decodedTiles.set idx.toNat tid }
        with hl2
      set mF : Map := { r.1 with
        tileLayers := r.1.tileLayers.set m.tileLayers.length l2 } with hmF
      have hFL : mF.tileLayers = m.tileLayers ++ [l2] := by
        rw [hmF, hL3, hm2L]
        exact set_concat _ _ _
      have hwfF : WFMap mF := by
        obtain ⟨a1, a2, a3, a4, a5, a6⟩ := hwf3
        refine ⟨by rw [hmF]; exact a1, by rw [hmF, hW3]; exact hW,
          by rw [hmF, hH3]; exact hH, ?_, a5, ?_⟩
        · intro tl htl
          rw [hFL] at htl
          show tl.decodedTiles.length = ((mF.width * mF.height)).toNat
          have hWH2 : mF.width = m.width ∧ mF.height = m.height := by
            rw [hmF]; exact ⟨hW3, hH3⟩
          rw [hWH2.1, hWH2.2]
          rcases List.mem_append.mp htl with h | h
          · exact hwl tl h
          · simp only [List.mem_singleton] at h
            subst h
            show (l1.decodedTiles.set idx.toNat tid).length = _
            rw [List.length_set, hl1len]
            simp [hnewl]
        · intro src' p' hp'
          have : ts0 mF = ts0 r.1 := by rw [hmF]; rfl
          rw [this] at hp' ⊢
          have : mF.heap = r.1.heap := by rw [hmF]
          rw [this]
          have : mF.tileAt = r.1.tileAt := by rw [hmF]; rfl
          rw [this]
          exact a6 src' p' hp'
      have hgoodF : (mapGet (ts0 mF).tileByID tid).isSome := by
        have : ts0 mF = ts0 r.1 := by rw [hmF]; rfl
        rw [this]
        exact hbyid3
      refine ⟨hwfF, hW3, hH3, ?_, ?_⟩
      · intro a b c hat
        rw [At_isSome_iff] at hat ⊢
        obtain ⟨la, hla, h1, h2, h3, ts, rest, hts, h4⟩ := hat
        have htseq : ts = ts0 m := by
          rw [tilesets_eq_single m hts1] at hts
          injection hts with h _
          exact h.symm
        have hFW : mF.width = m.width := by rw [hmF]; exact hW3
        refine ⟨la, ?_, ?_, ?_, ?_, ?_⟩
        · rw [hFL]
          exact find?_append_some _ _ _ _ hla
        · rw [hFW]; exact h1
        · rw [hFW]; exact h2
        · rw [hFW]; exact h3
        · have hts1F : mF.tilesets.length = 1 := hwfF.1
          refine ⟨ts0 mF, [], tilesets_eq_single mF hts1F, ?_⟩
          rw [hFW]
          have : ts0 mF = ts0 r.1 := by rw [hmF]; rfl
          rw [this]
          apply hmono3
          have e2 : ts0 m2 = ts0 m := rfl
          rw [e2, ← htseq]
          exact h4
      · intro hx1 hx2 hy1 hy2
        refine ⟨rfl, ?_⟩
        rw [At_isSome_iff]
        have hidx0 : 0 ≤ idx := by rw [hidx]; positivity
        have hidxlt : idx < m.width * m.height := by rw [hidx]; nlinarith
        have hl2name : l2.name = toString z := by rw [hl2]; exact hl1name
        have hfindF : mF.tileLayers.find? (fun tl => toString z = tl.name) = some l2 := by
          rw [hFL]
          rw [List.find?_append]
          have hnone : m.tileLayers.find? (fun tl => toString z = tl.name) = none :=
            findLayerIdx_none_find? m z hfind
          rw [hnone]
          simp [List.find?, hl1name, hl2name]
        have hl2len : (l2.decodedTiles.length : Int) = m.width * m.height := by
          rw [hl2]
          show ((l1.decodedTiles.set idx.toNat tid).length : Int) = _
          rw [List.length_set, hl1len, hlen]
        have hFW : mF.width = m.width := by rw [hmF]; exact hW3
        refine ⟨l2, hfindF, by rw [hFW]; exact hidx0, by rw [hFW, hl2len]; omega, ?_, ?_⟩
        · rw [hFW]
          show ¬ l2.decodedTiles.getD idx.toNat 0 = 0
          rw [hl2]
          show ¬ (l1.decodedTiles.set idx.toNat tid).getD idx.toNat 0 = 0
          rw [getD_set_self]
          · exact hid3
          · rw [hl1len]
            simp only [hnewl]
            rw [List.length_replicate]
            omega
        · have hts1F : mF.tilesets.length = 1 := hwfF.1
          refine ⟨ts0 mF, [], tilesets_eq_single mF hts1F, ?_⟩
          rw [hFW]
          show (mapGet (ts0 mF).tileByID
            (l2.decodedTiles.getD idx.toNat 0)).isSome = true
          have : l2.decodedTiles.getD idx.toNat 0 = tid := by
            rw [hl2]
            apply getD_set_self
            rw [hl1len]
            simp only [hnewl]
            rw [List.length_replicate]
            omega
          rw [this]
          exact hgoodF
  · -- a layer named z exists at position li
    obtain ⟨lb, hlb, hplb⟩ := findIdx?_getElem? _ _ _ hfind
    have hliLt : li < m.tileLayers.length := findIdx?_lt_length _ _ _ hfind
    have hgetD : m.tileLayers.getD li ⟨0, 0, 0, "", [], ⟨"", "", ""⟩, []⟩ = lb := by
      rw [List.getD_eq_getElem?_getD, hlb]
      rfl
    rw [hgetD]
    have hlbmem : lb ∈ m.tileLayers := by
      rw [← hgetD]
      exact findIdx_mem_getD _ _ _ _ hfind
    have hlblen : (lb.decodedTiles.length : Int) = m.width * m.height := by
      rw [hwl lb hlbmem, hWH]
    have hlbname : toString z = lb.name := of_decide_eq_true hplb
    by_cases hb : (lb.decodedTiles.length : Int) ≤ idx ∨ idx < 0
    · rw [if_pos hb]
      refine ⟨hwf, rfl, rfl, fun a b c h => h, ?_⟩
      intro hx1 hx2 hy1 hy2
      exfalso
      rw [hlblen] at hb
      have : 0 ≤ idx := by rw [hidx]; positivity
      have : idx < m.width * m.height := by rw [hidx]; nlinarith
      omega
    · rw [if_neg hb]
      push_neg at hb
      set l1 : TileLayer := if src = "" then
          { lb with decodedTiles := lb.decodedTiles.set idx.toNat 0 } else lb
        with hl1
      have hl1name : l1.name = lb.name := by
        rw [hl1]; split <;> rfl
      have hl1len : l1.decodedTiles.length = lb.decodedTiles.length := by
        rw [hl1]; split <;> simp
      set m2 : Map := { m with tileLayers := m.tileLayers.set li l1 } with hm2
      have hwf2 : WFMap m2 := by
        refine ⟨hts1, hW, hH, ?_, hnid, hsrc⟩
        intro tl htl
        rw [hm2] at htl
        rcases List.mem_or_eq_of_mem_set htl with h | h
        · exact hwl tl h
        · subst h
          show l1.decodedTiles.length = _
          rw [hl1len]
          exact hwl lb hlbmem
      obtain ⟨hwf3, hL3, hW3, hH3, hts3, hid3, hbyid3, hmono3⟩ :=
        findOrCreateTile_spec m2 src hwf2
      set r := m2.findOrCreateTile src with hr
      set tid := ((r.1.tileAt r.2).id) with htid
      set l2 : TileLayer := { l1 with decodedTiles := l1.decodedTiles.set idx.toNat tid }
        with hl2
      set mF : Map := { r.1 with tileLayers := r.1.tileLayers.set li l2 } with hmF
      have hFL : mF.tileLayers = m.tileLayers.set li l2 := by
        rw [hmF, hL3, hm2]
        show (m.tileLayers.set li l1).set li l2 = _
        rw [List.set_set]
      have hl2name : l2.name = lb.name := by rw [hl2]; exact hl1name
      have hl2len : l2.decodedTiles.length = lb.decodedTiles.length := by
        rw [hl2]
        show (l1.decodedTiles.set idx.toNat tid).length = _
        rw [List.length_set, hl1len]
      have hwfF : WFMap mF := by
        obtain ⟨a1, a2, a3, a4, a5, a6⟩ := hwf3
        refine ⟨by rw [hmF]; exact a1, by rw [hmF, hW3]; exact hW,
          by rw [hmF, hH3]; exact hH, ?_, a5, ?_⟩
        · intro tl htl
          rw [hFL] at htl
          show tl.decodedTiles.length = ((mF.width * mF.height)).toNat
          have hWH2 : mF.width = m.width ∧ mF.height = m.height := by
            rw [hmF]; exact ⟨hW3, hH3⟩
          rw [hWH2.1, hWH2.2]
          rcases List.mem_or_eq_of_mem_set htl with h | h
          · exact hwl tl h
          · subst h
            show l2.decodedTiles.length = _
            rw [hl2len]
            exact hwl lb hlbmem
        · intro src' p' hp'
          have e1 : ts0 mF = ts0 r.1 := by rw [hmF]; rfl
          rw [e1] at hp' ⊢
          have e2 : mF.heap = r.1.heap := by rw [hmF]
          rw [e2]
          have e3 : mF.tileAt = r.1.tileAt := by rw [hmF]; rfl
          rw [e3]
          exact a6 src' p' hp'
      have hgoodF : (mapGet (ts0 mF).tileByID tid).isSome := by
        have : ts0 mF = ts0 r.1 := by rw [hmF]; rfl
        rw [this]
        exact hbyid3
      have hFW : mF.width = m.width := by rw [hmF]; exact hW3
      have hFH : mF.height = m.height := by rw [hmF]; exact hH3
      have hts1F : mF.tilesets.length = 1 := hwfF.1
      have hl2cell : ∀ k : Nat, k ≠ idx.toNat →
          l2.decodedTiles.getD k 0 = lb.decodedTiles.getD k 0 := by
        intro k hk
        rw [hl2]
        show (l1.decodedTiles.set idx.toNat tid).getD k 0 = _
        rw [getD_set_ne _ _ _ _ _ (fun he => hk he.symm)]
        rw [hl1]
        split
        · show (lb.decodedTiles.set idx.toNat 0).getD k 0 = _
          rw [getD_set_ne _ _ _ _ _ (fun he => hk he.symm)]
        · rfl
      have hl2cellAt : l2.decodedTiles.getD idx.toNat 0 = tid := by
        rw [hl2]
        apply getD_set_self
        rw [hl1len]
        omega
      refine ⟨hwfF, hFW, hFH, ?_, ?_⟩
      · intro a b c hat
        rw [At_isSome_iff] at hat ⊢
        obtain ⟨la, hla, h1, h2, h3, ts, rest, hts, h4⟩ := hat
        have htseq : ts = ts0 m := by
          rw [tilesets_eq_single m hts1] at hts
          injection hts with h _
          exact h.symm
        have hmonoid : ∀ i, (mapGet (ts0 m).tileByID i).isSome →
            (mapGet (ts0 mF).tileByID i).isSome := by
          intro i hi
          have : ts0 mF = ts0 r.1 := by rw [hmF]; rfl
          rw [this]
          exact hmono3 i hi
        by_cases hcz : toString c = toString z
        · -- the written layer is the one At reads
          have hpeq : (fun tl : TileLayer => decide (toString c = tl.name))
              = (fun tl : TileLayer => decide (toString z = tl.name)) := by
            rw [hcz]
          rw [hpeq] at hla
          have hfeq : m.tileLayers.find? (fun tl => decide (toString z = tl.name))
              = m.tileLayers[li]? := find?_eq_getElem?_of_findIdx? _ _ _ hfind
          rw [hfeq, hlb] at hla
          injection hla with hla
          subst hla
          have hfindF : mF.tileLayers.find? (fun tl => decide (toString z = tl.name))
              = some l2 := by
            rw [hFL]
            exact find?_set_at_findIdx? _ _ _ _ hfind
              (by rw [hl2name]; exact hplb)
          rw [hpeq, hfindF]
          have hl2lenI : (l2.decodedTiles.length : Int) = (lb.decodedTiles.length : Int) := by
            exact_mod_cast congrArg Nat.cast hl2len
          refine ⟨l2, rfl, by rw [hFW]; exact h1,
            by rw [hFW, hl2lenI]; exact h2, ?_, ?_⟩
          · rw [hFW]
            by_cases hk : (b * m.width + a).toNat = idx.toNat
            · rw [hk, hl2cellAt]
              exact hid3
            · rw [hl2cell _ hk]
              exact h3
          · refine ⟨ts0 mF, [], tilesets_eq_single mF hts1F, ?_⟩
            rw [hFW]
            by_cases hk : (b * m.width + a).toNat = idx.toNat
            · rw [hk, hl2cellAt]
              exact hgoodF
            · rw [hl2cell _ hk]
              rw [htseq] at h4
              exact hmonoid _ h4
        · -- a different z-name: the read layer is untouched
          have hfindF : mF.tileLayers.find? (fun tl => decide (toString c = tl.name))
              = some la := by
            rw [hFL, find?_set_untouched _ _ li l2
              (by simp [hl1name, ← hlbname]; exact fun he => hcz he)
              (by intro bb hbb
                  rw [hlb] at hbb
                  injection hbb with hbb
                  subst hbb
                  simp [← hlbname]
                  exact fun he => hcz he)]
            exact hla
          rw [hfindF]
          refine ⟨la, rfl, by rw [hFW]; exact h1, by rw [hFW]; exact h2,
            by rw [hFW]; exact h3, ts0 mF, [], tilesets_eq_single mF hts1F, ?_⟩
          rw [hFW]
          rw [htseq] at h4
          exact hmonoid _ h4
      · intro hx1 hx2 hy1 hy2
        refine ⟨rfl, ?_⟩
        rw [At_isSome_iff]
        have hidx0 : 0 ≤ idx := by rw [hidx]; positivity
        have hfindF : mF.tileLayers.find? (fun tl => decide (toString z = tl.name))
            = some l2 := by
          rw [hFL]
          exact find?_set_at_findIdx? _ _ _ _ hfind (by rw [hl2name]; exact hplb)
        have hl2lenI : (l2.decodedTiles.length : Int) = (lb.decodedTiles.length : Int) := by
          exact_mod_cast congrArg Nat.cast hl2len
        refine ⟨l2, hfindF, by rw [hFW]; exact hidx0,
          by rw [hFW, hl2lenI]; omega, ?_, ?_⟩
        · rw [hFW]
          show ¬ l2.decodedTiles.getD idx.toNat 0 = 0
          rw [hl2cellAt]
          exact hid3
        · refine ⟨ts0 mF, [], tilesets_eq_single mF hts1F, ?_⟩
          rw [hFW]
          show (mapGet (ts0 mF).tileByID (l2.decodedTiles.getD idx.toNat 0)).isSome = true
          rw [hl2cellAt]
          exact hgoodF

theorem getD_set_id {α : Type} (l : List α) (n k : Nat) (a d : α) :
    (l.set n a).getD k d = if k = n ∧ n < l.length then a else l.getD k d := by
  by_cases hk : k = n
  · subst hk
    by_cases hn : k < l.length
    · rw [getD_set_self _ _ _ _ hn]
      simp [hn]
    · rw [List.set_eq_of_length_le (by omega)]
      simp [hn]
  · rw [getD_set_ne _ _ _ _ _ (fun he => hk he.symm)]
    simp [hk]

/-- Storing a nil bag panics inside toList unless the source is empty,
in which case SetProperties returns before touching the bag. -/
theorem setProperties_none (m : Map) (src : String) :
    m.setProperties src none = if src = "" then some m else none := by
  unfold Map.setProperties
  by_cases hs : src = ""
  · rw [if_pos hs]
  · rw [if_neg hs]

/-- Storing a non-nil bag on a source never panics, keeps the layer
grids and extent, preserves well-formedness and keeps every non-absent
At non-absent. -/
theorem setProperties_spec (m : Map) (src : String) (b : Properties) (hwf : WFMap m) :
    ∃ m2, m.setProperties src (some b) = some m2
      ∧ WFMap m2
      ∧ m2.width = m.width ∧ m2.height = m.height
      ∧ m2.tileLayers = m.tileLayers
      ∧ (∀ a b2 c : Int, (m.At a b2 c).isSome → (m2.At a b2 c).isSome) := by
  unfold Map.setProperties
  by_cases hs : src = ""
  · rw [if_pos hs]
    exact ⟨m, rfl, hwf, rfl, rfl, rfl, fun a b2 c h => h⟩
  · rw [if_neg hs]
    obtain ⟨hwf3, hL3, hW3, hH3, hts3, hid3, hbyid3, hmono3⟩ :=
      findOrCreateTile_spec m src hwf
    set r := m.findOrCreateTile src with hr
    set nt : Tile := { r.1.tileAt r.2 with properties := b.toList } with hnt
    set m2 : Map := { r.1 with heap := r.1.heap.set r.2 nt } with hm2
    have hids : ∀ k, (m2.tileAt k).id = (r.1.tileAt k).id := by
      intro k
      show ((r.1.heap.set r.2 nt).getD k tile0).id = _
      rw [getD_set_id]
      by_cases hcond : k = r.2 ∧ r.2 < r.1.heap.length
      · rw [if_pos hcond]
        rw [hnt]
        obtain ⟨he, _⟩ := hcond
        subst he
        rfl
      · rw [if_neg hcond]
        rfl
    have hwf2 : WFMap m2 := by
      obtain ⟨a1, a2, a3, a4, a5, a6⟩ := hwf3
      refine ⟨a1, a2, a3, a4, a5, ?_⟩
      intro src' p' hp'
      have e1 : ts0 m2 = ts0 r.1 := rfl
      rw [e1] at hp' ⊢
      obtain ⟨b1, b2, b3⟩ := a6 src' p' hp'
      refine ⟨?_, ?_, ?_⟩
      · show p' < (r.1.heap.set r.2 nt).length
        rw [List.length_set]
        exact b1
      · rw [hids]
        exact b2
      · rw [hids]
        exact b3
    refine ⟨m2, rfl, hwf2, hW3, hH3, hL3, ?_⟩
    intro a b2 c hat
    rw [At_isSome_iff] at hat ⊢
    obtain ⟨la, hla, h1, h2, h3, ts, rest, hts, h4⟩ := hat
    have htseq : ts = ts0 m := by
      rw [tilesets_eq_single m hwf.1] at hts
      injection hts with h _
      exact h.symm
    have e2 : m2.tileLayers = m.tileLayers := hL3
    have e3 : m2.width = m.width := hW3
    refine ⟨la, by rw [e2]; exact hla, by rw [e3]; exact h1, by rw [e3]; exact h2,
      by rw [e3]; exact h3, ts0 m2, [], tilesets_eq_single m2 hwf2.1, ?_⟩
    rw [e3]
    have e4 : ts0 m2 = ts0 r.1 := rfl
    rw [e4]
    apply hmono3
    rw [← htseq]
    exact h4

/-- One Add step: preserves well-formedness, the extent and non-absence,
and when the cell is non-nil, registered in the object's id index and
its destination lies inside the base bounds, the destination cell of the
result is non-absent. -/
theorem addStep_spec (ts : Tileset) (o : Map) (x y zo : Int) (m m2 : Map)
    (c : Int × Nat × Nat) (hwf : WFMap m) (h : addStep ts o x y zo m c = some m2) :
    WFMap m2 ∧ m2.width = m.width ∧ m2.height = m.height
      ∧ (∀ a b cc : Int, (m.At a b cc).isSome → (m2.At a b cc).isSome)
      ∧ (c.2.2 ≠ 0 → (mapGet ts.tileByID c.2.2).isSome →
          0 ≤ (c.2.1 : Int).tmod o.width + x → (c.2.1 : Int).tmod o.width + x < m.width →
          0 ≤ (c.2.1 : Int).tdiv o.width + y → (c.2.1 : Int).tdiv o.width + y < m.height →
          (m2.At ((c.2.1 : Int).tmod o.width + x) ((c.2.1 : Int).tdiv o.width + y)
            (c.1 + zo)).isSome) := by
  unfold addStep at h
  by_cases h0 : c.2.2 = 0
  · rw [if_pos h0] at h
    injection h with h
    subst h
    exact ⟨hwf, rfl, rfl, fun a b cc hh => hh, fun hne => absurd h0 hne⟩
  · rw [if_neg h0] at h
    rcases hby : mapGet ts.tileByID c.2.2 with _ | p
    · rw [hby] at h
      injection h with h
      subst h
      refine ⟨hwf, rfl, rfl, fun a b cc hh => hh, ?_⟩
      intro _ hsome
      simp at hsome
    · rw [hby] at h
      dsimp only at h
      set dx : Int := (c.2.1 : Int).tmod o.width + x with hdx
      set dy : Int := (c.2.1 : Int).tdiv o.width + y with hdy
      set src := (o.tileAt p).image.source with hsrcdef
      obtain ⟨hwf1, hW1, hH1, hmono1, hsucc1⟩ := set_spec m dx dy (c.1 + zo) src hwf
      set m1 := (m.set dx dy (c.1 + zo) src).1 with hm1
      have hAtm1 : 0 ≤ dx → dx < m.width → 0 ≤ dy → dy < m.height →
          (m1.At dx dy (c.1 + zo)).isSome := by
        intro u1 u2 u3 u4
        exact (hsucc1 (by rw [hdx]; omega) (by rw [hdx]; omega)
          (by rw [hdy]; omega) (by rw [hdy]; omega)).2
      rcases hmg : mergeGo (m1.properties src) (o.properties src) with _ | merged
      · rw [hmg] at h
        simp at h
      · rw [hmg] at h
        dsimp only at h
        rcases merged with _ | bb
        · -- a nil merged bag: only the empty source survives setProperties
          rw [setProperties_none] at h
          by_cases hs : src = ""
          · rw [if_pos hs] at h
            injection h with h
            subst h
            refine ⟨hwf1, hW1, hH1, hmono1, ?_⟩
            intro _ _ u1 u2 u3 u4
            exact hAtm1 u1 u2 u3 u4
          · rw [if_neg hs] at h
            exact Option.noConfusion h
        · obtain ⟨m2', he, hwf2, hW2, hH2, hL2, hmono2⟩ :=
            setProperties_spec m1 src bb hwf1
          rw [he] at h
          injection h with h
          subst h
          refine ⟨hwf2, by rw [hW2, hW1], by rw [hH2, hH1],
            fun a b cc hh => hmono2 a b cc (hmono1 a b cc hh), ?_⟩
          intro _ _ u1 u2 u3 u4
          exact hmono2 _ _ _ (hAtm1 u1 u2 u3 u4)

/-- Folding Add steps from a well-formed start preserves well-formedness
and the extent and keeps every non-absent At non-absent. -/
theorem foldAdd_spec (ts : Tileset) (o : Map) (x y zo : Int)
    (cells : List (Int × Nat × Nat)) (s m' : Map) (hwf : WFMap s)
    (h : cells.foldlM (addStep ts o x y zo) s = some m') :
    WFMap m' ∧ m'.width = s.width ∧ m'.height = s.height
      ∧ (∀ a b c : Int, (s.At a b c).isSome → (m'.At a b c).isSome) := by
  induction cells generalizing s with
  | nil =>
    rw [List.foldlM_nil] at h
    injection h with h
    subst h
    exact ⟨hwf, rfl, rfl, fun a b c hh => hh⟩
  | cons c cs ih =>
    rw [List.foldlM_cons] at h
    rcases hstep : addStep ts o x y zo s c with _ | s1
    · rw [hstep] at h
      exact Option.noConfusion h
    · rw [hstep] at h
      obtain ⟨hwf1, hW1, hH1, hmono1, _⟩ := addStep_spec ts o x y zo s s1 c hwf hstep
      obtain ⟨hwf2, hW2, hH2, hmono2⟩ := ih s1 hwf1 h
      exact ⟨hwf2, by rw [hW2, hW1], by rw [hH2, hH1],
        fun a b c2 hh => hmono2 a b c2 (hmono1 a b c2 hh)⟩

/-- A (non-nil, registered, in-bounds) cell of the worklist ends up
non-absent in the final map of a successful fold. -/
theorem foldAdd_writes (ts : Tileset) (o : Map) (x y zo : Int)
    (cells : List (Int × Nat × Nat)) (s m' : Map) (hwf : WFMap s)
    (h : cells.foldlM (addStep ts o x y zo) s = some m')
    (c : Int × Nat × Nat) (hc : c ∈ cells) (h0 : c.2.2 ≠ 0)
    (hby : (mapGet ts.tileByID c.2.2).isSome)
    (u1 : 0 ≤ (c.2.1 : Int).tmod o.width + x)
    (u2 : (c.2.1 : Int).tmod o.width + x < s.width)
    (u3 : 0 ≤ (c.2.1 : Int).tdiv o.width + y)
    (u4 : (c.2.1 : Int).tdiv o.width + y < s.height) :
    (m'.At ((c.2.1 : Int).tmod o.width + x) ((c.2.1 : Int).tdiv o.width + y)
      (c.1 + zo)).isSome := by
  induction cells generalizing s with
  | nil => simp at hc
  | cons c2 cs ih =>
    rw [List.foldlM_cons] at h
    rcases hstep : addStep ts o x y zo s c2 with _ | s1
    · rw [hstep] at h
      exact Option.noConfusion h
    · rw [hstep] at h
      obtain ⟨hwf1, hW1, hH1, hmono1, hwrite1⟩ := addStep_spec ts o x y zo s s1 c2 hwf hstep
      rcases List.mem_cons.mp hc with he | hmem
      · subst he
        obtain ⟨hwf2, hW2, hH2, hmono2⟩ := foldAdd_spec ts o x y zo cs s1 m' hwf1 h
        exact hmono2 _ _ _ (hwrite1 h0 hby u1 u2 u3 u4)
      · exact ih s1 hwf1 h hmem (by rw [hW1]; exact u2) (by rw [hH1]; exact u4)

/-- Little-endian decimal digits with explicit fuel (structural, so that
concrete renderings evaluate inside the kernel). -/
def digitsAux : Nat → Nat → List Nat
  | 0, _ => []
  | _ + 1, 0 => []
  | fuel + 1, n + 1 => (n + 1) % 10 :: digitsAux fuel ((n + 1) / 10)

/-- Little-endian decimal digits of a number. -/
def natDigits (n : Nat) : List Nat := digitsAux n n

theorem digitsAux_eq (fuel n : Nat) (h : n ≤ fuel) :
    digitsAux fuel n = Nat.digits 10 n := by
  induction fuel generalizing n with
  | zero =>
    have : n = 0 := by omega
    subst this
    simp [digitsAux]
  | succ fuel ih =>
    cases n with
    | zero => simp [digitsAux]
    | succ n =>
      rw [digitsAux, Nat.digits_def' (by norm_num : (1 : Nat) < 10) (by omega)]
      rw [ih ((n + 1) / 10) (by omega)]

theorem natDigits_eq (n : Nat) : natDigits n = Nat.digits 10 n :=
  digitsAux_eq n n (le_refl n)

/-- The decimal rendering of a tile id, as Go strconv.Itoa produces it. -/
def natChars (n : Nat) : List Char :=
  if n = 0 then ['0']
  else (natDigits n).reverse.map (fun d => Char.ofNat (48 + d))

/-- Join a list of character lists with a separator (Go strings.Join). -/
def sepChars (sep : List Char) : List (List Char) → List Char
  | [] => []
  | [t] => t
  | t :: t2 :: ts => t ++ sep ++ sepChars sep (t2 :: ts)

/-- `encodeCSV` renders the ids as `height` comma-joined rows of
`width` decimal numbers, rows joined by ",\n", the whole wrapped in
leading and trailing newlines. -/
def encodeCSV (width height : Int) (ids : List Nat) : String :=
  let values := (List.range height.toNat).map fun row =>
    sepChars [','] ((List.range width.toNat).map fun col =>
      natChars (ids.getD (row * width.toNat + col) 0))
  String.mk ('\n' :: (sepChars [',', '\n'] values ++ ['\n']))

/-- Split a character list on commas (Go strings.Split with ","): the
empty list yields one empty token. -/
def splitComma : List Char → List (List Char)
  | [] => [[]]
  | c :: cs =>
    match splitComma cs with
    | [] => [[]]
    | t :: ts => if c = ',' then [] :: t :: ts else (c :: t) :: ts

/-- Go strconv.ParseUint(s, 10, 32): all characters must be decimal
digits, the token non-empty and the value below 2^32. -/
def parseUint32 (cs : List Char) : Option Nat :=
  if cs = [] then none
  else if cs.all Char.isDigit then
    let v := Nat.ofDigits 10 ((cs.map (fun c => c.toNat - 48)).reverse)
    if v < 2 ^ 32 then some v else none
  else none

/-- Parse every token, failing on the first bad one. -/
def parseTokens : List (List Char) → Except String (List Nat)
  | [] => .ok []
  | t :: ts =>
    match parseUint32 t with
    | none => .error "invalid uint"
    | some v => (parseTokens ts).map (fun vs => v :: vs)

/-- `decodeCSV` strips every character that is not a digit or comma,
splits on commas and parses each token as an unsigned 32-bit integer. -/
def decodeCSV (raw : String) : Except String (List Nat) :=
  parseTokens (splitComma (raw.data.filter (fun c => c.isDigit || c = ',')))

theorem digit_char_facts (d : Nat) (h : d < 10) :
    (Char.ofNat (48 + d)).toNat = 48 + d
      ∧ (Char.ofNat (48 + d)).isDigit = true
      ∧ ¬ (Char.ofNat (48 + d)) = ',' := by
  interval_cases d <;> exact ⟨rfl, by decide, by decide⟩

theorem natChars_ne_nil (n : Nat) : natChars n ≠ [] := by
  rw [natChars]
  by_cases h : n = 0
  · simp [h]
  · rw [if_neg h, natDigits_eq]
    simp [Nat.digits_ne_nil_iff_ne_zero.mpr h]

theorem natChars_digits (n : Nat) :
    ∀ c ∈ natChars n, c.isDigit = true ∧ ¬ c = ',' := by
  intro c hc
  rw [natChars] at hc
  by_cases h : n = 0
  · rw [if_pos h] at hc
    simp at hc
    subst hc
    exact ⟨by decide, by decide⟩
  · rw [if_neg h, natDigits_eq] at hc
    simp only [List.mem_map, List.mem_reverse] at hc
    obtain ⟨d, hd, rfl⟩ := hc
    have hlt : d < 10 := Nat.digits_lt_base (by norm_num) hd
    exact ⟨(digit_char_facts d hlt).2.1, (digit_char_facts d hlt).2.2⟩

theorem parseUint32_natChars (n : Nat) (h : n < 2 ^ 32) :
    parseUint32 (natChars n) = some n := by
  by_cases h0 : n = 0
  · subst h0
    decide
  rw [parseUint32, if_neg (natChars_ne_nil n)]
  rw [if_pos (List.all_eq_true.mpr (fun c hc => (natChars_digits n c hc).1))]
  have hval : ((natChars n).map (fun c => c.toNat - 48)).reverse = Nat.digits 10 n := by
    rw [natChars]
    rw [if_neg h0, natDigits_eq]
    rw [List.map_map]
    have hcongr : ((Nat.digits 10 n).reverse.map
        ((fun c => c.toNat - 48) ∘ fun d => Char.ofNat (48 + d)))
        = (Nat.digits 10 n).reverse := by
      apply List.map_congr_left ?_ |>.trans (List.map_id _)
      intro d hd
      simp only [List.mem_reverse] at hd
      have hlt : d < 10 := Nat.digits_lt_base (by norm_num) hd
      show (Char.ofNat (48 + d)).toNat - 48 = d
      rw [(digit_char_facts d hlt).1]
      omega
    rw [hcongr, List.reverse_reverse]
  rw [hval, Nat.ofDigits_digits]
  rw [if_pos h]

theorem filter_sepChars (p : Char → Bool) (sep : List Char) (ts : List (List Char)) :
    (sepChars sep ts).filter p = sepChars (sep.filter p) (ts.map (·.filter p)) := by
  induction ts with
  | nil => rfl
  | cons t ts ih =>
    cases ts with
    | nil => rfl
    | cons t2 ts2 =>
      show (t ++ sep ++ sepChars sep (t2 :: ts2)).filter p = _
      rw [List.filter_append, List.filter_append, ih]
      rfl

theorem splitComma_ne_nil (cs : List Char) : splitComma cs ≠ [] := by
  cases cs with
  | nil => simp [splitComma]
  | cons c cs =>
    rw [splitComma]
    rcases splitComma cs with _ | ⟨t, ts⟩
    · simp
    · dsimp only
      split <;> simp

theorem splitComma_no_comma (t : List Char) (h : ∀ c ∈ t, ¬ c = ',') :
    splitComma t = [t] := by
  induction t with
  | nil => rfl
  | cons c cs ih =>
    rw [splitComma]
    rw [ih (fun c2 hc2 => h c2 (List.mem_cons_of_mem c hc2))]
    dsimp only
    rw [if_neg (h c (List.mem_cons_self c cs))]

theorem splitComma_append_comma (t cs : List Char) (h : ∀ c ∈ t, ¬ c = ',') :
    splitComma (t ++ ',' :: cs) = t :: splitComma cs := by
  induction t with
  | nil =>
    show splitComma (',' :: cs) = [] :: splitComma cs
    rw [splitComma]
    rcases hs : splitComma cs with _ | ⟨t2, ts2⟩
    · exact absurd hs (splitComma_ne_nil cs)
    · dsimp only
      rw [if_pos rfl]
  | cons c t ih =>
    show splitComma (c :: (t ++ ',' :: cs)) = (c :: t) :: splitComma cs
    rw [splitComma, ih (fun c2 hc2 => h c2 (List.mem_cons_of_mem c hc2))]
    dsimp only
    rw [if_neg (h c (List.mem_cons_self c t))]

theorem splitComma_sepChars (ts : List (List Char)) (hne : ts ≠ [])
    (h : ∀ t ∈ ts, ∀ c ∈ t, ¬ c = ',') :
    splitComma (sepChars [','] ts) = ts := by
  induction ts with
  | nil => exact absurd rfl hne
  | cons t ts ih =>
    cases ts with
    | nil =>
      show splitComma t = [t]
      exact splitComma_no_comma t (h t (List.mem_cons_self t []))
    | cons t2 ts2 =>
      show splitComma (t ++ [','] ++ sepChars [','] (t2 :: ts2)) = _
      rw [List.append_assoc]
      show splitComma (t ++ ',' :: sepChars [','] (t2 :: ts2)) = _
      rw [splitComma_append_comma t _ (h t (List.mem_cons_self t _))]
      rw [ih (by simp) (fun t3 ht3 => h t3 (List.mem_cons_of_mem t ht3))]

theorem sepChars_flatten (s : List Char) (tss : List (List (List Char)))
    (h : ∀ r ∈ tss, r ≠ []) :
    sepChars s (tss.map (sepChars s)) = sepChars s tss.flatten := by
  induction tss with
  | nil => rfl
  | cons r tss ih =>
    cases tss with
    | nil =>
      show sepChars s [sepChars s r] = sepChars s (r :: []).flatten
      rw [List.flatten_cons, List.flatten_nil, List.append_nil]
      rfl
    | cons r2 tss2 =>
      have hr : r ≠ [] := h r (List.mem_cons_self r _)
      have hr2 : (r2 :: tss2).flatten ≠ [] := by
        have : r2 ≠ [] := h r2 (List.mem_cons_of_mem r (List.mem_cons_self r2 tss2))
        cases r2 with
        | nil => exact absurd rfl this
        | cons a r2t => simp [List.flatten]
      show sepChars s (sepChars s r :: sepChars s r2 :: List.map (sepChars s) tss2)
          = sepChars s ((r ++ (r2 :: tss2).flatten))
      rw [show sepChars s (sepChars s r :: sepChars s r2 :: List.map (sepChars s) tss2)
          = sepChars s r ++ s ++ sepChars s (List.map (sepChars s) (r2 :: tss2)) from rfl]
      rw [ih (fun r3 hr3 => h r3 (List.mem_cons_of_mem r hr3))]
      -- join a nonempty head token list with the rest
      clear ih h
      induction r with
      | nil => exact absurd rfl hr
      | cons t rt ihr =>
        cases rt with
        | nil =>
          show t ++ s ++ sepChars s (r2 :: tss2).flatten
              = sepChars s (t :: (r2 :: tss2).flatten)
          rcases hfl : (r2 :: tss2).flatten with _ | ⟨f, fs⟩
          · exact absurd hfl hr2
          · rfl
        | cons t2 rt2 =>
          show (t ++ s ++ sepChars s (t2 :: rt2)) ++ s ++ sepChars s (r2 :: tss2).flatten
              = sepChars s (t :: t2 :: (rt2 ++ (r2 :: tss2).flatten))
          have := ihr (by simp)
          rw [show sepChars s (t :: t2 :: (rt2 ++ (r2 :: tss2).flatten))
              = t ++ s ++ sepChars s (t2 :: (rt2 ++ (r2 :: tss2).flatten)) from rfl]
          rw [show (t2 :: (rt2 ++ (r2 :: tss2).flatten))
              = ((t2 :: rt2) ++ (r2 :: tss2).flatten) from rfl]
          rw [← this]
          simp [List.append_assoc]

theorem mem_sepChars (sep : List Char) (ts : List (List Char)) (c : Char)
    (h : c ∈ sepChars sep ts) : c ∈ sep ∨ ∃ t ∈ ts, c ∈ t := by
  induction ts with
  | nil => simp [sepChars] at h
  | cons t ts ih =>
    cases ts with
    | nil =>
      exact Or.inr ⟨t, List.mem_cons_self t [], h⟩
    | cons t2 ts2 =>
      rw [show sepChars sep (t :: t2 :: ts2) = t ++ sep ++ sepChars sep (t2 :: ts2)
        from rfl] at h
      rcases List.mem_append.mp h with h2 | h2
      · rcases List.mem_append.mp h2 with h3 | h3
        · exact Or.inr ⟨t, List.mem_cons_self t _, h3⟩
        · exact Or.inl h3
      · rcases ih h2 with h3 | ⟨t3, ht3, hc3⟩
        · exact Or.inl h3
        · exact Or.inr ⟨t3, List.mem_cons_of_mem t ht3, hc3⟩

theorem flatten_map_map {α β : Type} (f : α → β) (ls : List (List α)) :
    (ls.map (·.map f)).flatten = ls.flatten.map f := by
  induction ls with
  | nil => rfl
  | cons l ls ih =>
    rw [List.map_cons, List.flatten_cons, List.flatten_cons, List.map_append, ih]

theorem range_map_getD (w : Nat) (ids : List Nat) (h : w ≤ ids.length) :
    (List.range w).map (fun col => ids.getD col 0) = ids.take w := by
  induction w with
  | zero => simp
  | succ w ih =>
    rw [List.range_succ, List.map_append, ih (by omega), List.take_succ]
    have hlt : w < ids.length := by omega
    simp [List.getD_eq_getElem?_getD, List.getElem?_eq_getElem hlt]

theorem grid_flatten (w : Nat) : ∀ (hh : Nat) (ids : List Nat),
    ids.length = hh * w →
    ((List.range hh).map (fun row =>
      (List.range w).map (fun col => ids.getD (row * w + col) 0))).flatten = ids := by
  intro hh
  induction hh with
  | zero =>
    intro ids hlen
    simp at hlen
    simp [hlen]
  | succ hh ih =>
    intro ids hlen
    rw [List.range_succ_eq_map, List.map_cons, List.flatten_cons]
    have hrow0 : (List.range w).map (fun col => ids.getD (0 * w + col) 0)
        = ids.take w := by
      rw [List.map_congr_left (fun col _ => by rw [Nat.zero_mul, Nat.zero_add])]
      exact range_map_getD w ids (by rw [hlen, Nat.succ_mul]; omega)
    have hrest : ((List.range hh).map (fun r => (· + 1) r)).map (fun row =>
        (List.range w).map (fun col => ids.getD (row * w + col) 0))
        = (List.range hh).map (fun row =>
            (List.range w).map (fun col => (ids.drop w).getD (row * w + col) 0)) := by
      rw [List.map_map]
      apply List.map_congr_left
      intro r _
      show (List.range w).map (fun col => ids.getD ((r + 1) * w + col) 0) = _
      apply List.map_congr_left
      intro col _
      rw [List.getD_eq_getElem?_getD, List.getD_eq_getElem?_getD, List.getElem?_drop]
      have : (r + 1) * w + col = w + (r * w + col) := by ring
      rw [this]
    rw [hrow0, hrest, ih (ids.drop w) (by rw [List.length_drop, hlen, Nat.succ_mul]; omega)]
    exact List.take_append_drop w ids

theorem parseTokens_map (ids : List Nat) (h : ∀ v ∈ ids, v < 2 ^ 32) :
    parseTokens (ids.map natChars) = .ok ids := by
  induction ids with
  | nil => rfl
  | cons v vs ih =>
    rw [List.map_cons, parseTokens,
      parseUint32_natChars v (h v (List.mem_cons_self v vs)),
      ih (fun v2 hv2 => h v2 (List.mem_cons_of_mem v hv2))]
    rfl

/-- The CSV codec round trip: decoding an encoded dense grid of
unsigned 32-bit ids of the exact width*height length gives the ids
back. -/
theorem decodeCSV_encodeCSV (width height : Int) (ids : List Nat)
    (hw : 0 < width) (hh : 0 < height)
    (hlen : ids.length = height.toNat * width.toNat)
    (hbound : ∀ v ∈ ids, v < 2 ^ 32) :
    decodeCSV (encodeCSV width height ids) = .ok ids := by
  rw [decodeCSV, encodeCSV]
  have hkeep : ∀ c : Char, (c.isDigit || c = ',') = true ↔ (c.isDigit ∨ c = ',') := by
    intro c
    simp
  set w := width.toNat with hwdef
  set h := height.toNat with hhdef
  have hw0 : 0 < w := by rw [hwdef]; omega
  have hh0 : 0 < h := by rw [hhdef]; omega
  set cellsOf : Nat → List Nat := fun row =>
    (List.range w).map (fun col => ids.getD (row * w + col) 0) with hcellsOf
  set tokensOf : Nat → List (List Char) := fun row => (cellsOf row).map natChars
    with htokensOf
  have hvalue : ∀ row, sepChars [','] ((List.range w).map fun col =>
      natChars (ids.getD (row * w + col) 0)) = sepChars [','] (tokensOf row) := by
    intro row
    rw [htokensOf]
    dsimp only
    rw [hcellsOf]
    rw [List.map_map]
    rfl
  have hdata : (String.mk ('\n' :: (sepChars [',', '\n']
      ((List.range h).map fun row => sepChars [',']
        ((List.range w).map fun col => natChars (ids.getD (row * w + col) 0)))
      ++ ['\n']))).data
      = '\n' :: (sepChars [',', '\n'] ((List.range h).map fun row =>
          sepChars [','] (tokensOf row)) ++ ['\n']) := by
    show _ = '\n' :: (sepChars [',', '\n'] _ ++ ['\n'])
    rw [List.map_congr_left (fun row _ => hvalue row)]
  rw [hdata]
  have htokdigit : ∀ row, ∀ t ∈ tokensOf row, ∀ c ∈ t, c.isDigit = true ∧ ¬ c = ',' := by
    intro row t ht c hc
    rw [htokensOf] at ht
    obtain ⟨v, _, rfl⟩ := List.mem_map.mp ht
    exact natChars_digits v c hc
  have hclean : ('\n' :: (sepChars [',', '\n'] ((List.range h).map fun row =>
      sepChars [','] (tokensOf row)) ++ ['\n'])).filter
        (fun c => c.isDigit || c = ',')
      = sepChars [','] (((List.range h).map tokensOf).map (sepChars [','])) := by
    rw [List.filter_cons, List.filter_append]
    have hnl : ¬ (('\n' : Char).isDigit || ('\n' : Char) = ',') = true := by decide
    simp only [hnl, Bool.false_eq_true, if_false]
    have hnl2 : (['\n'] : List Char).filter (fun c => c.isDigit || c = ',') = [] := by
      decide
    rw [hnl2, List.append_nil, filter_sepChars]
    have hsep : ([',', '\n'] : List Char).filter (fun c => c.isDigit || c = ',')
        = [','] := by decide
    rw [hsep]
    congr 1
    rw [List.map_map, List.map_map]
    apply List.map_congr_left
    intro row _
    show (sepChars [','] (tokensOf row)).filter (fun c => c.isDigit || c = ',') = _
    apply List.filter_eq_self.mpr
    intro c hc
    rcases mem_sepChars _ _ _ hc with hcm | ⟨t, ht, hct⟩
    · simp at hcm
      simp [hcm]
    · simp [(htokdigit row t ht c hct).1]
  rw [hclean]
  have hrownil : ∀ r ∈ (List.range h).map tokensOf, r ≠ [] := by
    intro r hr
    obtain ⟨row, _, rfl⟩ := List.mem_map.mp hr
    rw [htokensOf]
    dsimp only
    rw [hcellsOf]
    dsimp only
    intro hcon
    rw [List.map_eq_nil_iff, List.map_eq_nil_iff, List.range_eq_nil] at hcon
    omega
  rw [sepChars_flatten [','] ((List.range h).map tokensOf) hrownil]
  have hflat : ((List.range h).map tokensOf).flatten = ids.map natChars := by
    rw [htokensOf]
    show ((List.range h).map (fun row => (cellsOf row).map natChars)).flatten = _
    rw [show ((List.range h).map fun row => (cellsOf row).map natChars)
        = (((List.range h).map cellsOf).map (·.map natChars)) by rw [List.map_map]; rfl]
    rw [flatten_map_map]
    congr 1
    rw [hcellsOf]
    exact grid_flatten w h ids hlen
  rw [hflat]
  rw [splitComma_sepChars (ids.map natChars)
    (by
      intro hcon
      rw [List.map_eq_nil_iff] at hcon
      rw [hcon] at hlen
      simp at hlen
      omega)
    (by
      intro t ht c hc
      obtain ⟨v, _, rfl⟩ := List.mem_map.mp ht
      exact (natChars_digits v c hc).2)]
  exact parseTokens_map ids hbound

/-- The serialized (exported) view of a tileset: the indices and the
arena are not written to XML, tiles travel as values. -/
structure XTileset where
  firstGID : Nat
  name : String
  tileWidth : Int
  tileHeight : Int
  properties : List Property
  tiles : List Tile
deriving DecidableEq

/-- The serialized view of a tile layer: `decodedTiles` is unexported
and only the raw CSV text inside `data` travels. -/
structure XTileLayer where
  id : Nat
  width : Int
  height : Int
  name : String
  properties : List Property
  data : TMXData
deriving DecidableEq

/-- The serialized view of a map: exactly the exported fields the XML
encoder writes and the decoder reads back. -/
structure XMap where
  orientation : String
  width : Int
  height : Int
  tileWidth : Int
  tileHeight : Int
  rootProperties : List Property
  tilesets : List XTileset
  imageLayers : List ImageLayer
  tileLayers : List XTileLayer
deriving DecidableEq

deriving instance DecidableEq for Except

/-- Stable insertion by a sort key (the model of sort.Slice with the
less function `key i < key j`; sort.Slice promises only the ordering). -/
def insertByKey {α : Type} (key : α → Int) (a : α) : List α → List α
  | [] => [a]
  | b :: bs => if key b ≤ key a then b :: insertByKey key a bs else a :: b :: bs

/-- Sort a list ascending by an Int key. -/
def sortByKey {α : Type} (key : α → Int) : List α → List α
  | [] => []
  | a :: as => insertByKey key a (sortByKey key as)

/-- The sort key of Encode: ParseInt of the layer name, 0 on error. -/
def imageLayerKey (l : ImageLayer) : Int := (parseGoInt l.name).getD 0

/-- The sort key of Encode for tile layers. -/
def tileLayerKey (l : TileLayer) : Int := (parseGoInt l.name).getD 0

/-- `Encode`: sort the image and tile layers ascending by their numeric
names, renumber their display ids sequentially (image layers first),
shift every non-zero cell id by the first tileset's firstGID, render
each grid through the CSV codec and emit the exported view. (The Go
method also rebuilds the tileset's lookup caches in place; those caches
are not part of the written document.) -/
def encode (m : Map) : XMap :=
  let imageLayers := ((sortByKey imageLayerKey m.imageLayers).enum.map
    (fun p => { p.2 with id := p.1 + 1 }))
  let tls := ((sortByKey tileLayerKey m.tileLayers).enum.map
    (fun p => { p.2 with id := p.1 + m.imageLayers.length + 1 }))
  let offset : Nat := match m.tilesets with
    | [] => 0
    | ts :: _ => ts.firstGID
  { orientation := m.orientation
    width := m.width
    height := m.height
    tileWidth := m.tileWidth
    tileHeight := m.tileHeight
    rootProperties := m.rootProperties
    tilesets := m.tilesets.map (fun ts =>
      ⟨ts.firstGID, ts.name, ts.tileWidth, ts.tileHeight, ts.properties,
        ts.tiles.map (m.tileAt ·)⟩)
    imageLayers := imageLayers
    tileLayers := tls.map (fun tl =>
      ⟨tl.id, tl.width, tl.height, tl.name, tl.properties,
        { tl.data with
            rawData := encodeCSV m.width m.height
              (tl.decodedTiles.map (fun j => if j = 0 then 0 else j + offset)) }⟩) }

/-- Decode every layer's raw grid, aborting on the first CSV error. -/
def decodeLayers : List XTileLayer → Except String (List TileLayer)
  | [] => .ok []
  | l :: ls =>
    match decodeCSV l.data.rawData with
    | .error e => .error e
    | .ok tiles =>
      match decodeLayers ls with
      | .error e => .error e
      | .ok rest => .ok (⟨l.id, l.width, l.height, l.name, l.properties,
          l.data, tiles⟩ :: rest)

/-- `Decode`: reject anything but exactly one tileset, rebuild the two
lookup indices (the id index is keyed by tile id plus firstGID), compute
the allocator as the fold `if t.ID > nextID then nextID := t.ID + 1`
starting from 1, and decode every layer's CSV grid (which is kept as
read, without subtracting firstGID). -/
def decode (d : XMap) : Except String Map :=
  if d.tilesets.length ≠ 1 then .error "lib only supports 1 tileset"
  else
    match d.tilesets with
    | [] => .error "lib only supports 1 tileset"
    | ts :: _ =>
      let nextID := ts.tiles.foldl (fun acc t => if t.id > acc then t.id + 1 else acc) 1
      let tileByID := ts.tiles.enum.foldl
        (fun mp p => mapSet mp (p.2.id + ts.firstGID) p.1) []
      let tileBySrc := ts.tiles.enum.foldl
        (fun mp p => mapSet mp p.2.image.source p.1) []
      match decodeLayers d.tileLayers with
      | .error e => .error e
      | .ok layers => .ok
          { orientation := d.orientation
            width := d.width
            height := d.height
            tileWidth := d.tileWidth
            tileHeight := d.tileHeight
            rootProperties := d.rootProperties
            tilesets := [⟨ts.firstGID, ts.name, ts.tileWidth, ts.tileHeight,
              ts.properties, List.range ts.tiles.length, tileByID, tileBySrc⟩]
            imageLayers := d.imageLayers
            tileLayers := layers
            heap := ts.tiles
            nextID := nextID }

theorem toNat_mul_of_nonneg (a b : Int) (ha : 0 ≤ a) (hb : 0 ≤ b) :
    (a * b).toNat = a.toNat * b.toNat := by
  have h1 := Int.toNat_of_nonneg ha
  have h2 := Int.toNat_of_nonneg hb
  have h3 : (((a * b).toNat : Int)) = ((a.toNat * b.toNat : Nat) : Int) := by
    rw [Int.toNat_of_nonneg (by positivity)]
    push_cast
    rw [h1, h2]
  exact_mod_cast h3

theorem mem_insertByKey {α : Type} (key : α → Int) (a b : α) (l : List α) :
    b ∈ insertByKey key a l ↔ b ∈ a :: l := by
  induction l with
  | nil => simp [insertByKey]
  | cons c cs ih =>
    rw [insertByKey]
    by_cases h : key c ≤ key a
    · rw [if_pos h]
      simp only [List.mem_cons] at ih ⊢
      rw [ih]
      tauto
    · rw [if_neg h]

theorem mem_sortByKey {α : Type} (key : α → Int) (l : List α) (a : α) :
    a ∈ sortByKey key l ↔ a ∈ l := by
  induction l with
  | nil => simp [sortByKey]
  | cons c cs ih =>
    rw [sortByKey, mem_insertByKey]
    simp only [List.mem_cons]
    rw [ih]

theorem map_enum_snd_dep {α β : Type} (l : List α) (f : Nat × α → β) (g : α → β)
    (h : ∀ p : Nat × α, f p = g p.2) : l.enum.map f = l.map g := by
  have h2 : f = g ∘ Prod.snd := funext h
  rw [h2, ← List.map_map, List.enum_map_snd]

theorem decodeLayers_map (ls : List TileLayer) (g : TileLayer → XTileLayer)
    (f : TileLayer → List Nat)
    (h : ∀ l ∈ ls, decodeCSV (g l).data.rawData = .ok (f l)) :
    decodeLayers (ls.map g) = .ok (ls.map (fun l =>
      ⟨(g l).id, (g l).width, (g l).height, (g l).name, (g l).properties,
        (g l).data, f l⟩)) := by
  induction ls with
  | nil => rfl
  | cons l ls ih =>
    rw [List.map_cons, decodeLayers, h l (List.mem_cons_self l ls),
      ih (fun l2 hl2 => h l2 (List.mem_cons_of_mem l hl2))]
    rfl

/-- C1 amended, proved for any well-formed single-tileset map of
positive extent with dense layer grids whose shifted cell ids fit in 32
bits: decoding the encoding succeeds; the root properties, the tiles
(with their per-tile property bags) and the tileset's firstGID, name and
properties survive unchanged; the layers come back sorted ascending by
numeric name with every non-zero cell id shifted up by firstGID (and
zero cells kept zero) — in particular every layer of the original map
reappears under its own name with exactly the shifted grid, so a cell
holding local id v holds v + firstGID afterwards, not v. -/
theorem decode_encode_roundtrip (m : Map)
    (hts1 : m.tilesets.length = 1) (hw : 0 < m.width) (hh : 0 < m.height)
    (hwl : WFLayers m)
    (hbound : ∀ tl ∈ m.tileLayers, ∀ v ∈ tl.decodedTiles,
      (if v = 0 then 0 else v + (ts0 m).firstGID) < 2 ^ 32) :
    ∃ m', decode (encode m) = .ok m'
      ∧ m'.orientation = m.orientation
      ∧ m'.width = m.width ∧ m'.height = m.height
      ∧ m'.rootProperties = m.rootProperties
      ∧ m'.heap = (ts0 m).tiles.map (m.tileAt ·)
      ∧ (∃ ts', m'.tilesets = [ts'] ∧ ts'.firstGID = (ts0 m).firstGID
          ∧ ts'.name = (ts0 m).name ∧ ts'.properties = (ts0 m).properties)
      ∧ m'.tileLayers.map (fun tl => (tl.name, tl.decodedTiles))
          = (sortByKey tileLayerKey m.tileLayers).map (fun tl => (tl.name,
              tl.decodedTiles.map (fun j => if j = 0 then 0 else j + (ts0 m).firstGID)))
      ∧ (∀ tl ∈ m.tileLayers, ∃ tl' ∈ m'.tileLayers, tl'.name = tl.name
          ∧ tl'.decodedTiles = tl.decodedTiles.map
              (fun j => if j = 0 then 0 else j + (ts0 m).firstGID)) := by
  have hts := tilesets_eq_single m hts1
  set gid := (ts0 m).firstGID with hgid
  set shift : Nat → Nat := fun j => if j = 0 then 0 else j + gid with hshift
  set tls : List TileLayer := (sortByKey tileLayerKey m.tileLayers).enum.map
    (fun p => { p.2 with id := p.1 + m.imageLayers.length + 1 }) with htls
  have htlsmem : ∀ tl ∈ tls, tl.decodedTiles.length = (m.width * m.height).toNat
      ∧ ∀ v ∈ tl.decodedTiles, shift v < 2 ^ 32 := by
    intro tl htl
    rw [htls] at htl
    obtain ⟨p, hp, rfl⟩ := List.mem_map.mp htl
    have hmem : p.2 ∈ sortByKey tileLayerKey m.tileLayers := List.snd_mem_of_mem_enum hp
    rw [mem_sortByKey] at hmem
    exact ⟨hwl p.2 hmem, fun v hv => by
      have := hbound p.2 hmem v hv
      rw [hshift]
      exact this⟩
  have hoffset : (match m.tilesets with
      | [] => (0 : Nat)
      | ts :: _ => ts.firstGID) = gid := by
    rw [hts]
  have hdoc : encode m =
      { orientation := m.orientation,
        width := m.width,
        height := m.height,
        tileWidth := m.tileWidth,
        tileHeight := m.tileHeight,
        rootProperties := m.rootProperties,
        tilesets := [⟨(ts0 m).firstGID, (ts0 m).name, (ts0 m).tileWidth,
          (ts0 m).tileHeight, (ts0 m).properties, (ts0 m).tiles.map (m.tileAt ·)⟩],
        imageLayers := (sortByKey imageLayerKey m.imageLayers).enum.map
          (fun p => { p.2 with id := p.1 + 1 }),
        tileLayers := tls.map (fun tl =>
          ⟨tl.id, tl.width, tl.height, tl.name, tl.properties,
            { tl.data with
                rawData := encodeCSV m.width m.height (tl.decodedTiles.map shift) }⟩) } := by
    simp only [encode]
    rw [hts]
    rfl
  rw [hdoc]
  have hdecLayers : decodeLayers (tls.map (fun tl =>
      (⟨tl.id, tl.width, tl.height, tl.name, tl.properties,
        { tl.data with
            rawData := encodeCSV m.width m.height (tl.decodedTiles.map shift) }⟩
        : XTileLayer)))
      = .ok (tls.map (fun tl => ⟨tl.id, tl.width, tl.height, tl.name,
          tl.properties,
          { tl.data with
              rawData := encodeCSV m.width m.height (tl.decodedTiles.map shift) },
          tl.decodedTiles.map shift⟩)) := by
    apply decodeLayers_map tls _ (fun tl => tl.decodedTiles.map shift)
    intro l hl
    show decodeCSV (encodeCSV m.width m.height (l.decodedTiles.map shift)) = _
    apply decodeCSV_encodeCSV m.width m.height _ hw hh
    · rw [List.length_map, (htlsmem l hl).1, toNat_mul_of_nonneg _ _ (by omega) (by omega)]
      ring
    · intro v hv
      obtain ⟨v0, hv0, rfl⟩ := List.mem_map.mp hv
      exact (htlsmem l hl).2 v0 hv0
  rw [decode]
  rw [if_neg (by simp)]
  dsimp only
  rw [hdecLayers]
  dsimp only
  refine ⟨_, rfl, rfl, rfl, rfl, rfl, rfl, ⟨_, rfl, rfl, rfl, rfl⟩, ?_, ?_⟩
  · rw [List.map_map, htls, List.map_map]
    apply map_enum_snd_dep
    intro p
    rfl
  · intro tl htl
    have hmem : tl ∈ sortByKey tileLayerKey m.tileLayers := (mem_sortByKey _ _ _).mpr htl
    obtain ⟨i, hi⟩ := List.mem_iff_getElem?.mp hmem
    have henum : (i, tl) ∈ (sortByKey tileLayerKey m.tileLayers).enum :=
      List.mk_mem_enum_iff_getElem?.mpr hi
    refine ⟨_, List.mem_map.mpr
      ⟨{ tl with id := i + m.imageLayers.length + 1 }, ?_, rfl⟩, rfl, rfl⟩
    rw [htls]
    exact List.mem_map.mpr ⟨(i, tl), henum, rfl⟩

/-- A 1x1 map holding one real tile (id 1, source "a") in cell (0,0) of
layer "0", with the indices and arena exactly as the library builds
them and the tileset's firstGID at its default 1. -/
def mRound : Map :=
  ⟨"orthogonal", 1, 1, 32, 32, [],
    [⟨1, "default", 0, 0, [], [0], [(1, 0)], [("a", 0)]⟩], [],
    [⟨1, 1, 1, "0", [], ⟨"csv", "", ""⟩, [1]⟩], [⟨1, ⟨"a", 32, 32⟩, []⟩], 2⟩

/-- C1 counterexample: the cell of mRound holds local id 1 before the
round trip but global id 2 = 1 + firstGID after it — Encode adds
firstGID to every non-zero cell and Decode keeps the grid exactly as
read, so the in-memory representation after Decode(Encode(m)) uses
global ids, not local ids, and the claimed id-for-id reproduction
fails. -/
theorem roundtrip_keeps_global_ids_counterexample :
    (decode (encode mRound)).map (fun m => m.tileLayers.map (fun tl => tl.decodedTiles))
        = .ok [[2]]
      ∧ mRound.tileLayers.map (fun tl => tl.decodedTiles) = [[1]] := by
  decide

/-- Witness: the amended round-trip theorem applied to the concrete map
mRound, every hypothesis discharged by evaluation. -/
theorem decode_encode_roundtrip_witness :
    mRound.tilesets.length = 1 ∧ 0 < mRound.width ∧ 0 < mRound.height
      ∧ WFLayers mRound
      ∧ (∀ tl ∈ mRound.tileLayers, ∀ v ∈ tl.decodedTiles,
          (if v = 0 then 0 else v + (ts0 mRound).firstGID) < 2 ^ 32)
      ∧ (∃ m', decode (encode mRound) = .ok m'
          ∧ m'.orientation = mRound.orientation
          ∧ m'.width = mRound.width ∧ m'.height = mRound.height
          ∧ m'.rootProperties = mRound.rootProperties
          ∧ m'.heap = (ts0 mRound).tiles.map (mRound.tileAt ·)
          ∧ (∃ ts', m'.tilesets = [ts'] ∧ ts'.firstGID = (ts0 mRound).firstGID
              ∧ ts'.name = (ts0 mRound).name ∧ ts'.properties = (ts0 mRound).properties)
          ∧ m'.tileLayers.map (fun tl => (tl.name, tl.decodedTiles))
              = (sortByKey tileLayerKey mRound.tileLayers).map (fun tl => (tl.name,
                  tl.decodedTiles.map (fun j => if j = 0 then 0 else j + (ts0 mRound).firstGID)))
          ∧ (∀ tl ∈ mRound.tileLayers, ∃ tl' ∈ m'.tileLayers, tl'.name = tl.name
              ∧ tl'.decodedTiles = tl.decodedTiles.map
                  (fun j => if j = 0 then 0 else j + (ts0 mRound).firstGID))) :=
  ⟨by decide, by decide, by decide, by decide, by decide,
    decode_encode_roundtrip mRound (by decide) (by decide) (by decide)
      (by decide) (by decide)⟩

/-- A decoded document whose single tileset holds tiles with ids 1, 2
and 3. -/
def xdoc8 : XMap :=
  ⟨"orthogonal", 1, 1, 32, 32, [],
    [⟨1, "default", 32, 32, [],
      [⟨1, ⟨"a", 32, 32⟩, []⟩, ⟨2, ⟨"b", 32, 32⟩, []⟩, ⟨3, ⟨"c", 32, 32⟩, []⟩]⟩],
    [], []⟩

/-- C8: decoding a document with tile ids 1, 2, 3 leaves the allocator
at 3, not max+1 = 4 — the guard `if t.ID > m.nextID` compares against
the running nextID (already an id-plus-one) instead of the running
maximum, so the largest id never passes the test after the id before it
has set nextID to that same value, and the next allocated tile would
reuse the existing id 3. -/
theorem decode_nextID_off_by_one :
    (decode xdoc8).map (fun m => m.nextID) = .ok 3 := by
  decide

/-- C6 counterexample input: an object with no occupied cell at all. -/
def oEmpty : Map := New cfg11

/-- C6 counterexample base: a fresh 2x2 map. -/
def mBase : Map := New ⟨2, 2, 32, 32⟩

/-- C6 counterexample: Add of an object with no non-empty cell succeeds
(it does nothing), yet the identical Fits call afterwards returns true,
not false: with nothing written there is nothing to collide with. -/
theorem add_then_fits_counterexample :
    (mBase.add 0 0 0 oEmpty).map (fun m2 => m2.fits 0 0 0 oEmpty) = some true := by
  decide

/-- C6 amended: if Add completes without panicking on a well-formed base
map with a non-negative zoffset, and the object (of positive width) has
at least one cell that Add actually copies — non-nil and registered in
the object's first tileset id index — then the identical Fits call on
the result returns false: each copied cell either went off-map (an
immediate non-fit) or now occupies its destination. -/
theorem add_success_then_fits_false (m o m' : Map) (x y zoffset : Int)
    (hwf : WFMap m) (hzo : 0 ≤ zoffset) (_how : 0 < o.width)
    (hadd : m.add x y zoffset o = some m')
    (hcell : ∃ tl ∈ o.tileLayers, ∃ zl : Int, parseGoInt tl.name = some zl ∧
      ∃ iv ∈ tl.decodedTiles.enum, iv.2 ≠ 0
        ∧ (mapGet (ts0 o).tileByID iv.2).isSome) :
    m'.fits x y zoffset o = false := by
  unfold Map.add at hadd
  rcases hts : o.tilesets with _ | ⟨ts, rest⟩
  · rw [hts] at hadd
    exact Option.noConfusion hadd
  · rw [hts] at hadd
    dsimp only at hadd
    rw [resolveZ_of_nonneg m x y zoffset hzo] at hadd
    have htseq : ts0 o = ts := by
      rw [ts0, hts]
      rfl
    obtain ⟨tl, htl, zl, hzl, iv, hiv, h0, hby⟩ := hcell
    rw [htseq] at hby
    have hcells : (zl, iv.1, iv.2) ∈ addCells o := by
      rw [addCells, List.mem_flatMap]
      refine ⟨tl, htl, ?_⟩
      rw [hzl]
      exact List.mem_map.mpr ⟨iv, hiv, rfl⟩
    obtain ⟨hwfF, hWF, hHF, _⟩ := foldAdd_spec ts o x y zoffset (addCells o) m m' hwf hadd
    rw [fits_eq_false_char m' o x y zoffset hzo]
    refine ⟨tl, htl, zl, hzl, iv, hiv, h0, ?_⟩
    by_cases hin : 0 ≤ (iv.1 : Int).tmod o.width + x
        ∧ (iv.1 : Int).tmod o.width + x < m.width
        ∧ 0 ≤ (iv.1 : Int).tdiv o.width + y
        ∧ (iv.1 : Int).tdiv o.width + y < m.height
    · have hat := foldAdd_writes ts o x y zoffset (addCells o) m m' hwf hadd
        (zl, iv.1, iv.2) hcells h0 hby hin.1 hin.2.1 hin.2.2.1 hin.2.2.2
      exact Or.inr (Or.inr (Or.inr (Or.inr hat)))
    · rw [hWF, hHF]
      have : ((iv.1 : Int).tmod o.width + x < 0
          ∨ (iv.1 : Int).tmod o.width + x ≥ m.width
          ∨ (iv.1 : Int).tdiv o.width + y < 0
          ∨ (iv.1 : Int).tdiv o.width + y ≥ m.height) := by omega
      tauto

/-- C6 witness object: a 1x1 object with its single cell occupied. -/
def oUnit : Map := ((New cfg11).set 0 0 0 "a").1

/-- Witness for the amended C6 theorem: a concrete placement of a 1x1
occupied object onto a fresh 2x2 map. -/
theorem add_success_then_fits_false_witness :
    ((mBase.add 0 0 0 oUnit).getD mBase).fits 0 0 0 oUnit = false :=
  add_success_then_fits_false mBase oUnit ((mBase.add 0 0 0 oUnit).getD mBase) 0 0 0
    ⟨by decide, by decide, by decide,
      by intro tl h; simp [mBase, New] at h,
      by decide,
      by intro src p hp; simp [mBase, New, ts0, newTileset, mapGet] at hp⟩
    (by decide) (by decide) (by decide)
    ⟨oUnit.tileLayers.headD ⟨0, 0, 0, "", [], ⟨"", "", ""⟩, []⟩, by decide, 0,
      by decide, (0, 1), by decide, by decide, by decide⟩

/-- C10 counterexample object: a 2x1 object with both cells occupied by
distinct sources. -/
def oWide : Map := (((New ⟨1, 2, 32, 32⟩).set 0 0 0 "a").1.set 1 0 0 "b").1

/-- C10 counterexample: placing the 2x1 object onto a 1x1 map makes the
second cell's flattened destination index out of range while its source
"b" is still unknown to the base map; Set fails before registering the
tile, `m.Properties("b")` is nil, and Merge dereferences the nil bag — a
panic (modelled as none), not the silent-skip-and-register the claim
describes. -/
theorem add_oob_fresh_source_panics : (New cfg11).add 0 0 0 oWide = none := by
  decide

/-- A parametric one-cell tile object: a 1x1 map whose single cell on
layer "0" holds tile id 1 with the given image source and property
list. -/
def singleTob (src : String) (plist : List Property) : Map :=
  { orientation := "orthogonal"
    width := 1
    height := 1
    tileWidth := 32
    tileHeight := 32
    rootProperties := []
    tilesets := [⟨1, "default", 0, 0, [], [0], [(1, 0)], [(src, 0)]⟩]
    imageLayers := []
    tileLayers := [⟨0, 1, 1, "0", [], ⟨"csv", "", ""⟩, [1]⟩]
    heap := [⟨1, ⟨src, 32, 32⟩, plist⟩]
    nextID := 2 }

/-- C10 amended: when the destination's flattened index is out of range
but the cell's source is already registered in the base map (pointer p,
inside the arena) and the layer named after the destination z-level
exists, Add completes without reporting anything, drops the tile write
(the layer list is unchanged), yet still stores the merge of the base
map's bag for the source with the object's bag on the source's tile. -/
theorem setIndex_oob (m : Map) (z idx : Int) (src : String) (li : Nat)
    (hli : m.findLayerIdx z = some li)
    (hoob : ((m.tileLayers.getD li ⟨0, 0, 0, "", [], ⟨"", "", ""⟩, []⟩
        ).decodedTiles.length : Int) ≤ idx ∨ idx < 0) :
    m.setIndex z idx src = (m, some "index is out of bounds for this map") := by
  unfold Map.setIndex
  rw [hli]
  dsimp only
  rw [if_pos hoob]

theorem add_oob_known_source_updates_bag (m : Map) (x y z : Int) (src : String)
    (plist : List Property) (p li : Nat)
    (hz : 0 ≤ z) (hs : ¬ src = "")
    (hfound : m.findTileBySrc src = some p)
    (hp : p < m.heap.length)
    (hli : m.findLayerIdx z = some li)
    (hoob : ((m.tileLayers.getD li ⟨0, 0, 0, "", [], ⟨"", "", ""⟩, []⟩
        ).decodedTiles.length : Int) ≤ y * m.width + x ∨ y * m.width + x < 0) :
    ∃ m2, m.add x y z (singleTob src plist) = some m2
      ∧ m2.tileLayers = m.tileLayers
      ∧ (m2.tileAt p).properties
          = ((newPropertiesFromList (m.tileAt p).properties).merge
              (newPropertiesFromList plist)).toList := by
  have hpm : m.properties src = some (newPropertiesFromList (m.tileAt p).properties) := by
    unfold Map.properties
    rw [if_neg hs, hfound]
  have hpo : (singleTob src plist).properties src
      = some (newPropertiesFromList plist) := by
    unfold Map.properties
    rw [if_neg hs]
    have hfo : (singleTob src plist).findTileBySrc src = some 0 := by
      unfold Map.findTileBySrc singleTob
      simp [mapGet]
    rw [hfo]
    rfl
  set merged : Properties := (newPropertiesFromList (m.tileAt p).properties).merge
      (newPropertiesFromList plist) with hmerged
  set nt : Tile := { m.tileAt p with properties := merged.toList } with hnt
  set m2 : Map := { m with heap := m.heap.set p nt } with hm2
  have hsp : m.setProperties src (some merged) = some m2 := by
    unfold Map.setProperties Map.findOrCreateTile
    rw [if_neg hs, hfound]
  have hstep : addStep ⟨1, "default", 0, 0, [], [0], [(1, 0)], [(src, 0)]⟩
      (singleTob src plist) x y z m (0, 0, 1) = some m2 := by
    unfold addStep
    rw [if_neg (by decide : ¬ ((0 : Int), (0 : Nat), (1 : Nat)).2.2 = 0)]
    have hget : mapGet (⟨1, "default", 0, 0, [], [0], [(1, 0)],
        [(src, 0)]⟩ : Tileset).tileByID ((0 : Int), (0 : Nat), (1 : Nat)).2.2
        = some 0 := rfl
    rw [hget]
    show (let m1 := (m.set ((0 : Int).tmod (singleTob src plist).width + x)
            ((0 : Int).tdiv (singleTob src plist).width + y) ((0 : Int) + z)
            ((singleTob src plist).tileAt 0).image.source).1
          match mergeGo (m1.properties ((singleTob src plist).tileAt 0).image.source)
              ((singleTob src plist).properties
                ((singleTob src plist).tileAt 0).image.source) with
          | none => none
          | some mg => m1.setProperties
              ((singleTob src plist).tileAt 0).image.source mg) = some m2
    have hsrceq : ((singleTob src plist).tileAt 0).image.source = src := rfl
    rw [hsrceq]
    have hxy : (0 : Int).tmod (singleTob src plist).width + x = x := by
      show (0 : Int).tmod 1 + x = x
      norm_num
    have hxy2 : (0 : Int).tdiv (singleTob src plist).width + y = y := by
      show (0 : Int).tdiv 1 + y = y
      norm_num
    have hz2 : (0 : Int) + z = z := zero_add z
    rw [hxy, hxy2, hz2]
    have hset : m.set x y z src = (m, some "index is out of bounds for this map") :=
      setIndex_oob m z (y * m.width + x) src li hli hoob
    rw [hset]
    dsimp only
    rw [hpm, hpo]
    show m.setProperties src (some merged) = some m2
    exact hsp
  refine ⟨m2, ?_, rfl, ?_⟩
  · unfold Map.add
    show (match (singleTob src plist).tilesets with
      | [] => none
      | ts :: _ => (addCells (singleTob src plist)).foldlM
          (addStep ts (singleTob src plist) x y ((m.resolveZ x y z))) m) = some m2
    have hts : (singleTob src plist).tilesets
        = [⟨1, "default", 0, 0, [], [0], [(1, 0)], [(src, 0)]⟩] := rfl
    rw [hts]
    dsimp only
    rw [resolveZ_of_nonneg m x y z hz]
    have hcells : addCells (singleTob src plist) = [(0, 0, 1)] := by
      rw [addCells]
      rfl
    rw [hcells, List.foldlM_cons, hstep]
    rfl
  · show ((m.heap.set p nt).getD p tile0).properties = merged.toList
    rw [getD_set_self _ _ _ _ hp]

/-- C10 witness base map: a 1x1 map whose single cell already holds the
source "b". -/
def mKnown : Map := ((New cfg11).set 0 0 0 "b").1

/-- Witness for the amended C10 theorem: adding a one-cell "b" object at
the out-of-range destination (0,1) of the 1x1 base map. -/
theorem add_oob_known_source_updates_bag_witness :
    ∃ m2, mKnown.add 0 1 0 (singleTob "b" [⟨"k", "v", "string"⟩]) = some m2
      ∧ m2.tileLayers = mKnown.tileLayers
      ∧ (m2.tileAt 0).properties
          = ((newPropertiesFromList (mKnown.tileAt 0).properties).merge
              (newPropertiesFromList [⟨"k", "v", "string"⟩])).toList :=
  add_oob_known_source_updates_bag mKnown 0 1 0 "b" [⟨"k", "v", "string"⟩] 0 0
    (by decide) (by decide) (by decide) (by decide) (by decide) (by decide)

/-- Witness for C3: a 1x1 object with an occupied cell placed onto an
occupied cell of the base map; the characterization instantiates and the
collision cell is exhibited. -/
theorem fits_false_iff_collision_or_off_map_witness :
    ((mLevelFive.fits 0 0 5 oProbe = false) ↔
      ∃ tl ∈ oProbe.tileLayers, ∃ zl : Int, parseGoInt tl.name = some zl ∧
        ∃ iv ∈ tl.decodedTiles.enum, iv.2 ≠ 0 ∧
          ((iv.1 : Int).tmod oProbe.width + 0 < 0
            ∨ (iv.1 : Int).tmod oProbe.width + 0 ≥ mLevelFive.width
            ∨ (iv.1 : Int).tdiv oProbe.width + 0 < 0
            ∨ (iv.1 : Int).tdiv oProbe.width + 0 ≥ mLevelFive.height
            ∨ (mLevelFive.At ((iv.1 : Int).tmod oProbe.width + 0)
                ((iv.1 : Int).tdiv oProbe.width + 0) (zl + 5)).isSome)) :=
  fits_false_iff_collision_or_off_map mLevelFive oProbe 0 0 5 (by decide) (by decide)

/-- The decimal character rendering of a Go int (fmt %d): a minus sign
then the digits for negatives. -/
def intChars (i : Int) : List Char :=
  if i < 0 then '-' :: natChars i.natAbs else natChars i.toNat

/-- A row of the sqlite `tiles` table. -/
structure DBTile where
  id : String
  x : Int
  y : Int
  z : Int
  src : String
deriving DecidableEq

/-- `newDBTile` builds the row for (x,y,z,src); the primary key is the
string "x-y-z". -/
def newDBTile (x y z : Int) (src : String) : DBTile :=
  ⟨⟨intChars x ++ '-' :: intChars y ++ '-' :: intChars z⟩, x, y, z, src⟩

/-- The persistent state of an InfiniteMap: the `tiles` table as rows
keyed by the primary key `id` in insertion order, and the `properties`
table keyed by `src`, its JSON payload held decoded. -/
structure InfiniteMap where
  tiles : List (String × DBTile)
  props : List (String × Properties)
deriving DecidableEq

/-- `(*InfiniteMap).Set`: upsert of `newDBTile x y z src` on the primary
key; on conflict only the `src` column is updated (ON CONFLICT (id) DO
UPDATE SET src=EXCLUDED.src), the stored x, y, z stay as they were. -/
def InfiniteMap.set (i : InfiniteMap) (x y z : Int) (src : String) : InfiniteMap :=
  let t := newDBTile x y z src
  match mapGet i.tiles t.id with
  | some old => { i with tiles := mapSet i.tiles t.id { old with src := src } }
  | none => { i with tiles := mapSet i.tiles t.id t }

/-- The `properties` helper: it renders "SELECT src,data FROM properties
WHERE src=:prop_0 OR ... LIMIT n" with one OR term per requested source.
With no sources the WHERE clause is empty and the statement is malformed
SQL, so the query itself errors; otherwise the matching rows (at most n)
come back with their payloads decoded into fresh bags. -/
def InfiniteMap.properties (i : InfiniteMap) (srcs : List String) :
    Except String (List (String × Properties)) :=
  if srcs.isEmpty then .error "malformed query"
  else .ok ((i.props.filter (fun kv => srcs.contains kv.1)).take srcs.length)

/-- `(*InfiniteMap).Map`, the materializer: reject an empty region,
build a fresh map of extent (x1-x0, y1-y0), range-query the rows with
x0<=x<x1 and y0<=y<y1 (in table order) and write each one via
`tmap.Set(tile.X, tile.Y, tile.Z, tile.Src)` — the absolute stored
coordinates, with Set's returned error discarded — then load the
property bags of the sources just touched and apply each through
`SetProperties` (row order standing for Go's map iteration). The outer
`none` models a Go panic inside the property loop; the inner value is
the method's (map, error) result. -/
def InfiniteMap.materialize (i : InfiniteMap) (tilewidth tileheight : Nat)
    (x0 y0 x1 y1 : Int) : Option (Except String Map) :=
  if x1 ≤ x0 ∨ y1 ≤ y0 then
    some (.error "requested map dimensions invalid, unable to render map")
  else
    let tmap : Map :=
      { orientation := "orthogonal"
        width := x1 - x0
        height := y1 - y0
        tileWidth := (tilewidth : Int)
        tileHeight := (tileheight : Int)
        rootProperties := []
        tilesets := [newTileset "default" 1]
        imageLayers := []
        tileLayers := []
        heap := []
        nextID := 1 }
    let rows := (i.tiles.map Prod.snd).filter (fun t =>
      decide (x0 ≤ t.x) && decide (t.x < x1) && decide (y0 ≤ t.y) && decide (t.y < y1))
    let srcs := rows.map (fun t => t.src)
    let tmap2 := rows.foldl (fun tm t => (tm.set t.x t.y t.z t.src).1) tmap
    match i.properties srcs with
    | .error e => some (.error e)
    | .ok srcProps =>
      (srcProps.foldlM (fun (tm : Map) kv => tm.setProperties kv.1 (some kv.2)) tmap2).map
        (fun tmOk => .ok tmOk)

/-- C7 failing store: a single stored tile at (1,0,0) with source "a"
and no stored properties. -/
def infC7 : InfiniteMap := InfiniteMap.set ⟨[], []⟩ 1 0 0 "a"

/-- C7: materializing the 1x1 region x0=1, y0=0, x1=2, y1=1 of a store
holding one tile at (1,0,0) must, per the claim, write that tile at
map-local (0,0) — exactly what writing the translated cell directly on a
fresh 1x1 in-memory map does, leaving the cell occupied by tile id 1.
The code instead passes the absolute stored coordinates straight to Set,
whose flattened index 0*1+1 = 1 is out of bounds for the 1x1 grid: the
error is discarded and the materialized map's only layer ("0", created
by the failed Set) is still entirely empty. No subtraction of x0, y0
happens anywhere in the method. -/
theorem materialize_ignores_region_origin :
    (infC7.materialize 32 32 1 0 2 1).map (fun r => r.map (fun m =>
        m.tileLayers.map (fun tl => (tl.name, tl.decodedTiles))))
      = some (.ok [("0", [0])])
    ∧ ((New ⟨1, 1, 32, 32⟩).set 0 0 0 "a").1.tileLayers.map
        (fun tl => (tl.name, tl.decodedTiles)) = [("0", [1])] := by
  decide

end Tile
